import Mathlib

/-!
# bleve-search-example: ingestion, bootstrap and HTTP handlers of `main.go`

A shallow embedding of `src/main.go`.  The search library (bleve), the JSON
decoder, the filesystem and the HTTP server are external to the repository and
appear as explicit parameters (oracles) or as small records that mirror the
library's exported fields.

Conventions:

* a Go `string` that is sliced or scanned bytewise (a filename) is a list of
  bytes, `GoString`;
* text that is only concatenated and formatted (URL terms, response bodies,
  library constants) is a Lean `String`;
* a Go `error` is its message.
-/

namespace BeerSearch

/-! ## Strings and errors -/

/-- A Go string: an immutable sequence of bytes. -/
abbrev GoString := List UInt8

/-- A Go `error` value, identified by its message. -/
abbrev GoError := String

/-- The bytes of an ASCII literal. -/
def asciiBytes (s : String) : GoString :=
  s.data.map (fun c => UInt8.ofNat c.toNat)

/-- The byte `'.'`. -/
def dot : UInt8 := 46

/-- Go's `os.IsPathSeparator` on a Unix build: `PathSeparator == c` with
`PathSeparator = '/'`. -/
def IsPathSeparator (c : UInt8) : Bool := c == 47

/-- The loop of `filepath.Ext`:
`for i := len(path) - 1; i >= 0 && !os.IsPathSeparator(path[i]); i--`, with
`if path[i] == '.' { return path[i:] }` as its body and `return ""` after it.
The argument `n` is `i + 1`. -/
def ExtLoop (path : GoString) : Nat → GoString
  | 0 => []
  | i + 1 =>
    if IsPathSeparator (path.getD i 0) then []
    else if path.getD i 0 = dot then path.drop i
    else ExtLoop path i

/-- Go's `filepath.Ext(path)`. -/
def Ext (path : GoString) : GoString := ExtLoop path path.length

/-- Lines 263-264 of `indexBeer`:
`ext := filepath.Ext(filename); docID := filename[:(len(filename) - len(ext))]`. -/
def docID (filename : GoString) : GoString :=
  let ext := Ext filename
  filename.take (filename.length - ext.length)

/-! ## Ingestion (`indexBeer`) -/

/-- The value `bleve.ErrorEmptyID`. -/
def ErrorEmptyID : GoError := "document ID cannot be empty"

/-- A bleve `Batch`.  `IndexOps` is what the batch holds: bleve's map from
document identifier to document, as an association list with one entry per
identifier, in order of (last) insertion; its length is the batch's `Size()`.
`ops` is a trace beside it: every `Index(id, doc)` call made on the batch, in
call order, whether or not the call changed the map.  `id` tells batch objects
apart: it is the number of `NewBatch` calls made before the one that returned
this batch. -/
structure Batch (Doc : Type) where
  id : Nat
  IndexOps : List (GoString × Doc)
  ops : List (GoString × Doc)
deriving DecidableEq

/-- The call `i.NewBatch()`: a fresh empty batch; `created` counts the earlier calls. -/
def NewBatch {Doc : Type} (created : Nat) : Batch Doc :=
  { id := created, IndexOps := [], ops := [] }

/-- The call `batch.Index(id, data)` of bleve, with the error it returns:
`if id == "" { return ErrorEmptyID }` leaves the map as it is; otherwise
`b.IndexOps[id] = doc` replaces an entry under the same identifier or adds a
new one, and the result is `nil`.  (Mapping the data into a document cannot
fail with bleve's index mapping.) -/
def Batch.Index {Doc : Type} (b : Batch Doc) (id : GoString) (doc : Doc) :
    Batch Doc × Option GoError :=
  if id = [] then
    ({ b with ops := b.ops ++ [(id, doc)] }, some ErrorEmptyID)
  else
    ({ b with IndexOps := (b.IndexOps.filter fun p => p.1 ≠ id) ++ [(id, doc)],
              ops := b.ops ++ [(id, doc)] }, none)

/-- One call `i.Batch(batch)` together with the error it returned (`none` is
`nil`). -/
structure BatchCall (Doc : Type) where
  batch : Batch Doc
  err : Option GoError
deriving DecidableEq

/-- Everything `indexBeer` reads from outside: the two flags, the filesystem,
the JSON decoder and the index.  `IndexBatch earlier b` is the result of
`i.Batch(b)` when `earlier` are the batches handed over before it. -/
structure World (Doc : Type) where
  jsonDir : GoString
  batchSize : Int
  ReadDir : GoString → Except GoError (List GoString)
  ReadFile : GoString → Except GoError (List UInt8)
  Unmarshal : List UInt8 → Except GoError Doc
  IndexBatch : List (Batch Doc) → Batch Doc → Option GoError

/-- The argument of `ioutil.ReadFile` on line 253: `*jsonDir + "/" + filename`. -/
def filePath {Doc : Type} (w : World Doc) (filename : GoString) : GoString :=
  w.jsonDir ++ asciiBytes "/" ++ filename

/-- The local variables of `indexBeer` that live across loop iterations, and
the log of `i.Batch` calls made so far. -/
structure LoopState (Doc : Type) where
  calls : List (BatchCall Doc)
  created : Nat
  batch : Batch Doc
  batchCount : Int
  count : Int

/-- How a Go function ended: `return err` (`none` is `return nil`), or
`log.Fatal(err)`, which exits the process. -/
inductive Outcome where
  | returned (err : Option GoError)
  | fatal (err : GoError)
deriving DecidableEq

/-- The `for _, dirEntry := range dirEntries` loop of `indexBeer` (lines
250-283).  The result is the state when the loop was left and the error of an
early `return err`, if any.  Line 265 discards the error `batch.Index`
returns.  The progress line printed every 1000 documents only formats `count`
and wall-clock times and is left out. -/
def indexLoop {Doc : Type} (w : World Doc) :
    List GoString → LoopState Doc → LoopState Doc × Option GoError
  | [], s => (s, none)
  | filename :: rest, s =>
    match w.ReadFile (filePath w filename) with
    | .error err => (s, some err)
    | .ok jsonBytes =>
      match w.Unmarshal jsonBytes with
      | .error err => (s, some err)
      | .ok jsonDoc =>
        let batch := (s.batch.Index (docID filename) jsonDoc).1
        let batchCount := s.batchCount + 1
        if batchCount ≥ w.batchSize then
          match w.IndexBatch (s.calls.map (·.batch)) batch with
          | some err =>
            ({ s with calls := s.calls ++ [⟨batch, some err⟩], batch := batch,
                      batchCount := batchCount }, some err)
          | none =>
            indexLoop w rest
              { calls := s.calls ++ [⟨batch, none⟩], created := s.created + 1,
                batch := NewBatch s.created, batchCount := 0, count := s.count + 1 }
        else
          indexLoop w rest
            { s with batch := batch, batchCount := batchCount, count := s.count + 1 }

/-- The loop variables on entry to the loop (lines 245-249): `count := 0`,
`batch := i.NewBatch()`, `batchCount := 0`, and no `i.Batch` call made yet. -/
def initState {Doc : Type} : LoopState Doc :=
  { calls := [], created := 1, batch := NewBatch 0, batchCount := 0, count := 0 }

/-- What one execution of `indexBeer` did: the `i.Batch` calls in order, and how
it ended. -/
structure Run (Doc : Type) where
  calls : List (BatchCall Doc)
  outcome : Outcome
deriving DecidableEq

/-- The function `indexBeer(i)` (lines 235-296). -/
def indexBeer {Doc : Type} (w : World Doc) : Run Doc :=
  match w.ReadDir w.jsonDir with
  | .error err => { calls := [], outcome := .returned (some err) }
  | .ok dirEntries =>
    match indexLoop w dirEntries initState with
    | (s, some err) => { calls := s.calls, outcome := .returned (some err) }
    | (s, none) =>
      if s.batchCount > 0 then
        match w.IndexBatch (s.calls.map (·.batch)) s.batch with
        | some err => { calls := s.calls ++ [⟨s.batch, some err⟩], outcome := .fatal err }
        | none => { calls := s.calls ++ [⟨s.batch, none⟩], outcome := .returned none }
      else { calls := s.calls, outcome := .returned none }

/-- The batches handed to `i.Batch`, in call order. -/
def Run.batches {Doc : Type} (r : Run Doc) : List (Batch Doc) := r.calls.map (·.batch)

/-- The `(docID, document)` pairs held by the batches handed to `i.Batch`,
batch after batch: the documents submitted to the index. -/
def Run.submitted {Doc : Type} (r : Run Doc) : List (GoString × Doc) :=
  (r.batches.map (·.IndexOps)).flatten

/-- What a batch that started empty holds after the `Index` calls `ops`: calls
with an empty identifier are skipped, a later call replaces an earlier one
under the same identifier. -/
def held {Doc : Type} (ops : List (GoString × Doc)) : List (GoString × Doc) :=
  ops.foldl (fun m p => if p.1 = [] then m else (m.filter fun q => q.1 ≠ p.1) ++ [p]) []

/-- No two entries of `ids` that fall into the same batch of size `B` (places
`i < j` with `i / B = j / B`) are equal. -/
def DistinctInBatch (B : Nat) (ids : List GoString) : Prop :=
  ∀ i j, i < j → j < ids.length → i / B = j / B → ids[i]? ≠ ids[j]?

/-- The file `filename` of `jsonDir` reads and decodes without error. -/
def Loads {Doc : Type} (w : World Doc) (filename : GoString) : Prop :=
  ∃ jsonBytes jsonDoc,
    w.ReadFile (filePath w filename) = .ok jsonBytes ∧
    w.Unmarshal jsonBytes = .ok jsonDoc

/-- The file `filename` of `jsonDir` reads, and its bytes fail to decode with
error `err`. -/
def Malformed {Doc : Type} (w : World Doc) (filename : GoString) (err : GoError) : Prop :=
  ∃ jsonBytes,
    w.ReadFile (filePath w filename) = .ok jsonBytes ∧
    w.Unmarshal jsonBytes = .error err

/-- Executable form of `Loads`. -/
def loadsB {Doc : Type} (w : World Doc) (filename : GoString) : Bool :=
  match w.ReadFile (filePath w filename) with
  | .error _ => false
  | .ok jsonBytes =>
    match w.Unmarshal jsonBytes with
    | .error _ => false
    | .ok _ => true

/-- The `(docID, document)` pair of each listed file that reads and decodes, in
listing order. -/
def parsedPairs {Doc : Type} (w : World Doc) (dirEntries : List GoString) :
    List (GoString × Doc) :=
  dirEntries.filterMap fun filename =>
    match w.ReadFile (filePath w filename) with
    | .error _ => none
    | .ok jsonBytes =>
      match w.Unmarshal jsonBytes with
      | .error _ => none
      | .ok jsonDoc => some (docID filename, jsonDoc)

/-- Every `i.Batch` call succeeds. -/
def EngineAccepts {Doc : Type} (w : World Doc) : Prop :=
  ∀ earlier b, w.IndexBatch earlier b = none

/-- The `(docID, document)` pairs passed to `batch.Index`, batch after batch of
a call log. -/
def flatOps {Doc : Type} (calls : List (BatchCall Doc)) : List (GoString × Doc) :=
  (calls.map (·.batch.ops)).flatten

/-- Loop invariant on the call log for batch size `B`: every batch handed over
has had exactly `B` `Index` calls, and the batch objects were created in
strictly increasing order. -/
def CallsOK {Doc : Type} (B : Nat) (calls : List (BatchCall Doc)) : Prop :=
  (∀ c ∈ calls, c.batch.ops.length = B) ∧ (calls.map (·.batch.id)).Pairwise (· < ·)

/-- Loop invariant on the open batch for batch size `B`: it is newer than every
batch handed over, `batchCount` is the number of `Index` calls made on it, and
that number is below `B`. -/
def OpenOK {Doc : Type} (B : Nat) (s : LoopState Doc) : Prop :=
  (∀ c ∈ s.calls, c.batch.id < s.batch.id) ∧ s.batch.id < s.created ∧
    s.batchCount = (s.batch.ops.length : Int) ∧ s.batch.ops.length < B

/-! ### A small concrete world -/

/-- A decoder for examples: bytes starting with an opening brace decode to
their length, anything else is an error. -/
def toyUnmarshal (bs : List UInt8) : Except GoError Nat :=
  match bs with
  | 123 :: _ => .ok bs.length
  | _ => .error "invalid character"

/-- A directory `data` whose files are given as `(name, contents)`; every batch
is accepted. -/
def toyWorld (files : List (String × String)) (batchSize : Int) : World Nat where
  jsonDir := asciiBytes "data"
  batchSize := batchSize
  ReadDir := fun _ => .ok (files.map fun f => asciiBytes f.1)
  ReadFile := fun path =>
    match (files.map fun f => (asciiBytes ("data/" ++ f.1), asciiBytes f.2)).lookup path with
    | some bs => .ok bs
    | none => .error "no such file"
  Unmarshal := toyUnmarshal
  IndexBatch := fun _ _ => none

/-- Two files, the second of which is not JSON; batch size 2. -/
def failFastWorld : World Nat := toyWorld [("a.json", "{}"), ("b.json", "x")] 2

/-- Three well-formed files followed by one that is not JSON; batch size 2. -/
def lateFailWorld : World Nat :=
  toyWorld [("a.json", "{}"), ("b.json", "{}"), ("c.json", "{}"), ("d.json", "x")] 2

/-- A file whose name is only an extension, then a well-formed one; batch
size 1. -/
def emptyIdWorld : World Nat := toyWorld [(".json", "{}"), ("a.json", "{}")] 1

/-- A file whose name is only an extension, then one that is not JSON; batch
size 1. -/
def emptyIdFailWorld : World Nat := toyWorld [(".json", "{}"), ("b.json", "x")] 1

/-- Two files with the same stem in one batch, then a third; batch size 2. -/
def sameStemWorld : World Nat :=
  toyWorld [("a.json", "{}"), ("a.txt", "{ }"), ("b.json", "{}")] 2

/-- Five well-formed files. -/
def fiveFiles : List (String × String) :=
  [("a.json", "{}"), ("b.json", "{}"), ("c.json", "{}"), ("d.json", "{}"), ("e.json", "{}")]

/-- The listing of `fiveFiles`. -/
def fiveNames : List GoString := fiveFiles.map fun f => asciiBytes f.1

/-- The directory of `fiveFiles`, with batch size 2. -/
def fiveWorld : World Nat := toyWorld fiveFiles 2

/-! ## The background task started by `init` -/

/-- How the goroutine of lines 91-105 ends: it runs to its end, or it calls
`log.Fatal`, which exits the whole process. -/
inductive TaskEnd where
  | finished
  | processExit (err : GoError)
deriving DecidableEq

/-- The body of `go func() { ... }()` (lines 91-105): `err = indexBeer(beerIndex)`,
`log.Fatal(err)` when `err != nil`, then `pprof.StopCPUProfile()` and, when the
`memprofile` flag is set, `os.Create(*memprofile)` with `log.Fatal` on failure.
A `log.Fatal` inside `indexBeer` (line 288) exits the process as well.
`Create name` is the error of `os.Create(name)`, `none` for `nil`. -/
def backgroundIndexing {Doc : Type} (w : World Doc) (memprofile : String)
    (Create : String → Option GoError) : TaskEnd :=
  match (indexBeer w).outcome with
  | .fatal err => .processExit err
  | .returned (some err) => .processExit err
  | .returned none =>
    if memprofile ≠ "" then
      match Create memprofile with
      | some err => .processExit err
      | none => .finished
    else .finished

/-! ## Startup (`init`) -/

/-- The value `bleve.ErrorIndexPathDoesNotExist`. -/
def ErrorIndexPathDoesNotExist : GoError := "cannot open index, path does not exist"

/-- Everything `init` reads from outside: the flags, `os.Create`, `bleve.Open`,
the repository's `buildIndexMapping` (its source is not part of `main.go`; only
its result matters here) and `bleve.NewUsing`. -/
structure Startup (Index Mapping : Type) where
  cpuprofile : String
  indexPath : String
  Create : String → Option GoError
  Open : String → Except GoError Index
  buildIndexMapping : Except GoError Mapping
  NewUsing : String → Mapping → String → String → Except GoError Index

/-- The calls of `init` that matter outside it, in program order. -/
inductive Effect (Index Mapping : Type) where
  | startCPUProfile (file : String)
  | newUsing (path : String) (mapping : Mapping) (indexType kvstore : String)
  | goIndexBeer (i : Index)

/-- What `init` did: its calls, the value left in the global `beerIndex` (`none`
is `nil`), and the error of a `log.Fatal`, if one ended the process. -/
structure InitRun (Index Mapping : Type) where
  effects : List (Effect Index Mapping)
  beerIndex : Option Index
  fatal : Option GoError

/-- The function `init()` (lines 56-112).  `flag.Parse` and the `log.Printf` lines are left
out. -/
def init {Index Mapping : Type} (e : Startup Index Mapping) : InitRun Index Mapping :=
  match (if e.cpuprofile ≠ "" then e.Create e.cpuprofile else none) with
  | some err => { effects := [], beerIndex := none, fatal := some err }
  | none =>
    let started : List (Effect Index Mapping) :=
      if e.cpuprofile ≠ "" then [.startCPUProfile e.cpuprofile] else []
    match e.Open e.indexPath with
    | .error err =>
      if err = ErrorIndexPathDoesNotExist then
        match e.buildIndexMapping with
        | .error err => { effects := started, beerIndex := none, fatal := some err }
        | .ok indexMapping =>
          match e.NewUsing e.indexPath indexMapping "scorch" "scorch" with
          | .error err =>
            { effects := started ++ [.newUsing e.indexPath indexMapping "scorch" "scorch"],
              beerIndex := none, fatal := some err }
          | .ok i =>
            { effects := started ++
                [.newUsing e.indexPath indexMapping "scorch" "scorch", .goIndexBeer i],
              beerIndex := some i, fatal := none }
      else { effects := started, beerIndex := none, fatal := some err }
    | .ok i => { effects := started, beerIndex := some i, fatal := none }

/-- The indexes for which `init` started the background ingestion, one entry
per `go` statement executed. -/
def InitRun.ingestions {Index Mapping : Type} (r : InitRun Index Mapping) : List Index :=
  r.effects.filterMap fun
    | .goIndexBeer i => some i
    | _ => none

/-- The arguments of the `bleve.NewUsing` calls `init` made. -/
def InitRun.creations {Index Mapping : Type} (r : InitRun Index Mapping) :
    List (String × Mapping × String × String) :=
  r.effects.filterMap fun
    | .newUsing path m t k => some (path, m, t, k)
    | _ => none

/-- A startup for examples: indexes and mappings are numbers, the index at
`beer-search.bleve` has the given `Open` result, the mapping is `7` and
`NewUsing` returns index `1`. -/
def toyStartup (opened : Except GoError Nat) : Startup Nat Nat where
  cpuprofile := ""
  indexPath := "beer-search.bleve"
  Create := fun _ => none
  Open := fun _ => opened
  buildIndexMapping := .ok 7
  NewUsing := fun _ _ _ _ => .ok 1

/-! ## Search requests and results (the part of bleve's API the handlers use) -/

/-- The type `query.QueryStringQuery`. -/
structure QueryStringQuery where
  Query : String

/-- The type `query.GeoDistanceQuery`.  A `float64` constant is represented by the exact
value of its decimal literal; the handlers do no arithmetic on it. -/
structure GeoDistanceQuery where
  Location : List ℚ
  Distance : String
  FieldVal : String

/-- A bleve query, as far as the handlers build one. -/
inductive Query where
  | queryString (q : QueryStringQuery)
  | geoDistance (q : GeoDistanceQuery)
  | conjunction (Conjuncts : List Query)

/-- The type `query.ConjunctionQuery`. -/
structure ConjunctionQuery where
  Conjuncts : List Query

/-- The call `bleve.NewQueryStringQuery(q)`. -/
def NewQueryStringQuery (q : String) : QueryStringQuery := { Query := q }

/-- The call `bleve.NewGeoDistanceQuery(lon, lat, distance)`: the location is
`[]float64{lon, lat}` and the field is unset. -/
def NewGeoDistanceQuery (lon lat : ℚ) (distance : String) : GeoDistanceQuery :=
  { Location := [lon, lat], Distance := distance, FieldVal := "" }

/-- The call `q.SetField(f)`. -/
def GeoDistanceQuery.SetField (q : GeoDistanceQuery) (f : String) : GeoDistanceQuery :=
  { q with FieldVal := f }

/-- The call `bleve.NewConjunctionQuery()` without arguments. -/
def NewConjunctionQuery : ConjunctionQuery := { Conjuncts := [] }

/-- The call `q.AddQuery(aq)`: appends. -/
def ConjunctionQuery.AddQuery (q : ConjunctionQuery) (aq : Query) : ConjunctionQuery :=
  { Conjuncts := q.Conjuncts ++ [aq] }

/-- The type `bleve.HighlightRequest`. -/
structure HighlightRequest where
  Style : Option String
  Fields : List String
deriving DecidableEq

/-- The call `bleve.NewHighlightWithStyle(style)`. -/
def NewHighlightWithStyle (style : String) : HighlightRequest :=
  { Style := some style, Fields := [] }

/-- The constant `html.Name` of bleve's HTML highlighter package. -/
def htmlName : String := "html"

/-- The type `bleve.FacetRequest` (its range lists stay empty here). -/
structure FacetRequest where
  Size : Int
  Field : String
deriving DecidableEq

/-- The call `bleve.NewFacetRequest(field, size)`. -/
def NewFacetRequest (field : String) (size : Int) : FacetRequest :=
  { Size := size, Field := field }

/-- The type `bleve.SearchRequest`; `Facets` is the map `FacetsRequest` as an
association list. -/
structure SearchRequest where
  Query : Query
  Size : Int
  From : Int
  Highlight : Option HighlightRequest
  Facets : List (String × FacetRequest)
  Explain : Bool

/-- The call `bleve.NewSearchRequest(q)`, which is `NewSearchRequestOptions(q, 10, 0, false)`:
page size 10, offset 0, no explanation, no highlighting, no facets. -/
def NewSearchRequest (q : Query) : SearchRequest :=
  { Query := q, Size := 10, From := 0, Highlight := none, Facets := [], Explain := false }

/-- The call `r.AddFacet(facetName, f)`: `r.Facets[facetName] = f`. -/
def SearchRequest.AddFacet (r : SearchRequest) (facetName : String) (f : FacetRequest) :
    SearchRequest :=
  { r with Facets := (r.Facets.filter fun p => p.1 ≠ facetName) ++ [(facetName, f)] }

/-- The type `search.TermFacet`. -/
structure TermFacet where
  Term : String
  Count : Int
deriving DecidableEq

/-- The type `search.FacetResult`, as far as `Search` reads it. -/
structure FacetResult where
  Field : String
  Total : Int
  Terms : List TermFacet
deriving DecidableEq

/-- The type `bleve.SearchResult`: the map `Facets` as an association list, and
`rendering`, the text its `String()` method returns (what `%s` prints). -/
structure SearchResult where
  Facets : List (String × FacetResult)
  rendering : String
deriving DecidableEq

/-- The method `beerIndex.Search`: the engine, as a function of the request. -/
abbrev SearchFn := SearchRequest → Except GoError SearchResult

/-! ## HTTP handlers -/

/-- What a handler did: the requests it passed to `beerIndex.Search`, the
status of an explicit `w.WriteHeader` call (`none`: never called), everything
it wrote to `w`, and whether it ended in a run-time panic.  Lines printed to
standard output are left out. -/
structure HandlerRun where
  searched : List SearchRequest
  status : Option Nat
  body : String
  panicked : Bool

/-- The anchor `lon, lat := -122.107799, 37.399285` of both geo handlers. -/
def lon : ℚ := -122.107799

/-- See `lon`. -/
def lat : ℚ := 37.399285

/-- Lines 117-125 of `GeoSearch`: the request it passes to the engine. -/
def GeoSearch.searchRequest : SearchRequest :=
  let distanceQuery := NewGeoDistanceQuery lon lat "100000mi"
  let distanceQuery := distanceQuery.SetField "geo"
  let searchRequest := NewSearchRequest (.geoDistance distanceQuery)
  { searchRequest with Explain := true }

/-- The handler `GeoSearch(w, r)` (lines 115-135). -/
def GeoSearch (search : SearchFn) : HandlerRun :=
  match search GeoSearch.searchRequest with
  | .error _ =>
    { searched := [GeoSearch.searchRequest], status := none, body := "", panicked := false }
  | .ok searchResults =>
    { searched := [GeoSearch.searchRequest], status := none,
      body := "\n\nSearch for records around a geo point:\n\n " ++ searchResults.rendering ++ " ",
      panicked := false }

/-- Lines 173-176 of `GeoSearchConjunction`: the variable `req`. -/
def GeoSearchConjunction.req (term : String) : SearchRequest :=
  let search := NewQueryStringQuery term
  let req := NewSearchRequest (.queryString search)
  let req := { req with Size := 30 }
  { req with Highlight := some (NewHighlightWithStyle htmlName) }

/-- Lines 173-188 of `GeoSearchConjunction`: the variable `searchRequest`, the
argument of `beerIndex.Search` on line 189. -/
def GeoSearchConjunction.searchRequest (term : String) : SearchRequest :=
  let search := NewQueryStringQuery term
  let distanceQuery := NewGeoDistanceQuery lon lat "100mi"
  let distanceQuery := distanceQuery.SetField "geo"
  let conRequest := NewConjunctionQuery
  let conRequest := conRequest.AddQuery (.queryString search)
  let conRequest := conRequest.AddQuery (.geoDistance distanceQuery)
  NewSearchRequest (.conjunction conRequest.Conjuncts)

/-- The handler `GeoSearchConjunction(w, r)` (lines 165-198); `term` is `mux.Vars(r)["term"]`. -/
def GeoSearchConjunction (search : SearchFn) (term : String) : HandlerRun :=
  match search (GeoSearchConjunction.searchRequest term) with
  | .error _ =>
    { searched := [GeoSearchConjunction.searchRequest term], status := none, body := "",
      panicked := false }
  | .ok searchResults =>
    { searched := [GeoSearchConjunction.searchRequest term], status := none,
      body := "\n\nResults for: " ++ term ++ " \n\n" ++ searchResults.rendering ++ " ",
      panicked := false }

/-- Lines 206-213 of `Search`: the variable `req`, the argument of
`beerIndex.Search` on line 215. -/
def Search.req (term : String) : SearchRequest :=
  let search := NewQueryStringQuery term
  let req := NewSearchRequest (.queryString search)
  let req := { req with Size := 30 }
  let req := { req with Highlight := some (NewHighlightWithStyle htmlName) }
  let stylesFacet := NewFacetRequest "state" 3
  req.AddFacet "styles" stylesFacet

/-- The handler `Search(w, r)` (lines 201-232); `term` is `mux.Vars(r)["term"]`.
`searchResults.Facets["styles"]` is a pointer: reading `.Total` through it
panics when the map has no such key, and `Terms[0]` panics on an empty slice,
after `"Facets:\n"` has been written. -/
def Search (search : SearchFn) (term : String) : HandlerRun :=
  match search (Search.req term) with
  | .error _ => { searched := [Search.req term], status := none, body := "", panicked := false }
  | .ok searchResults =>
    match searchResults.Facets.lookup "styles" with
    | none => { searched := [Search.req term], status := none, body := "", panicked := true }
    | some styles =>
      if styles.Total > 0 then
        match styles.Terms with
        | [] =>
          { searched := [Search.req term], status := none, body := "Facets:\n", panicked := true }
        | top :: _ =>
          { searched := [Search.req term], status := none,
            body := "Facets:\n" ++ (top.Term ++ " (" ++ toString top.Count ++ ") \n") ++
              ("\n\nResults for: " ++ term ++ " \n\n" ++ searchResults.rendering ++ " "),
            panicked := false }
      else
        { searched := [Search.req term], status := none,
          body := "\n\nResults for: " ++ term ++ " \n\n" ++ searchResults.rendering ++ " ",
          panicked := false }

/-- An engine for examples: two hits, and a `styles` facet with two buckets. -/
def toySearch : SearchFn := fun _ =>
  .ok { Facets := [("styles", { Field := "state", Total := 2,
                                 Terms := [⟨"CA", 1⟩, ⟨"FR", 1⟩] })],
        rendering := "2 matches" }

/-- An engine for examples that fails every search. -/
def failingSearch : SearchFn := fun _ => .error "index is closed"

/-! ## Lemmas on the ingestion loop -/

section Loop

variable {Doc : Type}

theorem Batch.Index_ops (b : Batch Doc) (id : GoString) (doc : Doc) :
    (b.Index id doc).1.ops = b.ops ++ [(id, doc)] := by
  unfold Batch.Index; split <;> rfl

theorem Batch.Index_id (b : Batch Doc) (id : GoString) (doc : Doc) :
    (b.Index id doc).1.id = b.id := by
  unfold Batch.Index; split <;> rfl

theorem indexLoop_readError (w : World Doc) (f : GoString) (rest : List GoString)
    (s : LoopState Doc) (err : GoError)
    (h : w.ReadFile (filePath w f) = .error err) :
    indexLoop w (f :: rest) s = (s, some err) := by
  simp [indexLoop, h]

theorem indexLoop_parseError (w : World Doc) (f : GoString) (rest : List GoString)
    (s : LoopState Doc) (bs : List UInt8) (err : GoError)
    (h : w.ReadFile (filePath w f) = .ok bs)
    (h2 : w.Unmarshal bs = .error err) :
    indexLoop w (f :: rest) s = (s, some err) := by
  simp [indexLoop, h, h2]

/-- A loop that ran to its end met only files that load. -/
theorem indexLoop_none_loads (w : World Doc) (es : List GoString) :
    ∀ s : LoopState Doc, (indexLoop w es s).2 = none → ∀ f ∈ es, Loads w f := by
  induction es with
  | nil => intro s _ f hf; simp at hf
  | cons e es ih =>
    intro s h f hf
    unfold indexLoop at h
    split at h
    · simp at h
    · rename_i bs hR
      split at h
      · simp at h
      · rename_i d hU
        have he : Loads w e := ⟨bs, d, hR, hU⟩
        rcases List.mem_cons.1 hf with rfl | hf
        · exact he
        · dsimp only at h
          split at h
          · split at h
            · simp at h
            · exact ih _ h f hf
          · exact ih _ h f hf

/-- A loop that ran to its end made only successful `i.Batch` calls. -/
theorem indexLoop_none_errs (w : World Doc) (es : List GoString) :
    ∀ s : LoopState Doc, (∀ c ∈ s.calls, c.err = none) → (indexLoop w es s).2 = none →
      ∀ c ∈ (indexLoop w es s).1.calls, c.err = none := by
  induction es with
  | nil => intro s hs _; simpa [indexLoop] using hs
  | cons e es ih =>
    intro s hs h
    unfold indexLoop at h ⊢
    split
    · rename_i hR; simp [hR] at h
    · rename_i bs hR
      simp only [hR] at h
      split
      · rename_i hU; simp [hU] at h
      · rename_i d hU
        simp only [hU] at h
        dsimp only at h ⊢
        split
        · rename_i hB
          simp only [hB, if_true] at h
          split
          · rename_i hE; simp [hE] at h
          · rename_i hE
            simp only [hE] at h
            refine ih _ ?_ h
            intro c hc
            rcases List.mem_append.1 hc with hc | hc
            · exact hs c hc
            · simp at hc; simp [hc]
        · rename_i hB
          simp only [hB, if_false] at h
          exact ih _ hs h

/-- Running the loop over `pre ++ rest` is running it over `pre` and, when that
ends without error, over `rest` from the state reached. -/
theorem indexLoop_append (w : World Doc) (pre rest : List GoString) :
    ∀ s : LoopState Doc, (indexLoop w pre s).2 = none →
      indexLoop w (pre ++ rest) s = indexLoop w rest (indexLoop w pre s).1 := by
  induction pre with
  | nil => intro s _; simp [indexLoop]
  | cons e es ih =>
    intro s h
    rw [List.cons_append]
    cases hR : w.ReadFile (filePath w e) with
    | error err => simp [indexLoop, hR] at h
    | ok bs =>
      cases hU : w.Unmarshal bs with
      | error err => simp [indexLoop, hR, hU] at h
      | ok d =>
        by_cases hB : s.batchCount + 1 ≥ w.batchSize
        · cases hE : w.IndexBatch (s.calls.map (·.batch)) ((s.batch.Index (docID e) d).1) with
          | some err => simp [indexLoop, hR, hU, hB, hE] at h
          | none =>
            simp only [indexLoop, hR, hU, hB, hE, if_true] at h ⊢
            exact ih _ h
        · simp only [indexLoop, hR, hU, hB, if_false] at h ⊢
          exact ih _ h

/-- Over files that all load, with an engine that accepts every batch, the loop
runs to its end. -/
theorem indexLoop_loads_none (w : World Doc) (hE : EngineAccepts w) (es : List GoString) :
    ∀ s : LoopState Doc, (∀ f ∈ es, Loads w f) → (indexLoop w es s).2 = none := by
  induction es with
  | nil => intro s _; simp [indexLoop]
  | cons e es ih =>
    intro s h
    obtain ⟨bs, d, hR, hU⟩ := h e (List.mem_cons_self _ _)
    have h2 : ∀ f ∈ es, Loads w f := fun f hf => h f (List.mem_cons_of_mem _ hf)
    unfold indexLoop
    simp only [hR, hU, hE _ _]
    split
    · exact ih _ h2
    · exact ih _ h2

/-- A loop that ran to its end has put every listed document, in listing order,
either into a batch handed over or into the open batch. -/
theorem indexLoop_content (w : World Doc) (es : List GoString) :
    ∀ s : LoopState Doc, (indexLoop w es s).2 = none →
      flatOps (indexLoop w es s).1.calls ++ (indexLoop w es s).1.batch.ops =
        flatOps s.calls ++ s.batch.ops ++ parsedPairs w es := by
  induction es with
  | nil => intro s _; simp [indexLoop, parsedPairs]
  | cons e es ih =>
    intro s h
    unfold indexLoop at h ⊢
    split
    · rename_i hR; simp [hR] at h
    · rename_i bs hR
      simp only [hR] at h
      split
      · rename_i hU; simp [hU] at h
      · rename_i d hU
        simp only [hU] at h
        have hp : parsedPairs w (e :: es) = (docID e, d) :: parsedPairs w es := by
          simp [parsedPairs, List.filterMap_cons, hR, hU]
        dsimp only at h ⊢
        split
        · rename_i hB
          simp only [hB, if_true] at h
          split
          · rename_i hE; simp [hE] at h
          · rename_i hE
            simp only [hE] at h
            rw [ih _ h, hp]
            simp [flatOps, NewBatch, Batch.Index_ops]
        · rename_i hB
          simp only [hB, if_false] at h
          rw [ih _ h, hp]
          simp [Batch.Index_ops]

/-- The loop keeps both invariants: the call log stays well-formed whatever
happens, and the open batch does whenever the loop runs to its end. -/
theorem indexLoop_inv (w : World Doc) (B : Nat) (hw : w.batchSize = (B : Int))
    (es : List GoString) :
    ∀ s : LoopState Doc, CallsOK B s.calls → OpenOK B s →
      CallsOK B (indexLoop w es s).1.calls ∧
        ((indexLoop w es s).2 = none → OpenOK B (indexLoop w es s).1) := by
  induction es with
  | nil => intro s hc ho; simp [indexLoop, hc, ho]
  | cons e es ih =>
    intro s hc ho
    obtain ⟨hc1, hc2⟩ := hc
    obtain ⟨ho1, ho2, ho3, ho4⟩ := ho
    unfold indexLoop
    split
    · exact ⟨⟨hc1, hc2⟩, by simp⟩
    · split
      · exact ⟨⟨hc1, hc2⟩, by simp⟩
      · rename_i d hU
        have hlen : ((s.batch.Index (docID e) d).1).ops.length = s.batch.ops.length + 1 := by
          simp [Batch.Index_ops]
        have hid : (s.batch.Index (docID e) d).1.id = s.batch.id := Batch.Index_id _ _ _
        dsimp only
        split
        · rename_i hB
          have hfull : ((s.batch.Index (docID e) d).1).ops.length = B := by
            rw [hlen]; rw [hw, ho3] at hB; omega
          have hlog : ∀ err, CallsOK B (s.calls ++ [⟨(s.batch.Index (docID e) d).1, err⟩]) := by
            intro err
            refine ⟨?_, ?_⟩
            · intro c hc
              rcases List.mem_append.1 hc with hc | hc
              · exact hc1 c hc
              · simp at hc; rw [hc]; exact hfull
            · rw [List.map_append, List.pairwise_append]
              refine ⟨hc2, by simp, ?_⟩
              intro a ha b hb
              simp at hb
              obtain ⟨c, hc, rfl⟩ := List.mem_map.1 ha
              rw [hb, hid]; exact ho1 c hc
          split
          · exact ⟨hlog _, by simp⟩
          · refine ih _ (hlog _) ⟨?_, ?_, ?_, ?_⟩
            · intro c hc
              rcases List.mem_append.1 hc with hc | hc
              · exact lt_trans (ho1 c hc) ho2
              · simp at hc; rw [hc]; show (s.batch.Index (docID e) d).1.id < s.created
                rw [hid]; exact ho2
            · simp [NewBatch]
            · simp [NewBatch]
            · simp [NewBatch]; omega
        · rename_i hB
          refine ih _ ⟨hc1, hc2⟩ ⟨?_, ?_, ?_, ?_⟩
          · intro c hc
            show c.batch.id < (s.batch.Index (docID e) d).1.id
            rw [hid]; exact ho1 c hc
          · show (s.batch.Index (docID e) d).1.id < s.created
            rw [hid]; exact ho2
          · simp only [hlen, ho3]; push_cast; ring
          · rw [hlen]; rw [hw, ho3] at hB; omega

theorem initState_ok (B : Nat) (hB : 1 ≤ B) :
    CallsOK B (initState : LoopState Doc).calls ∧ OpenOK B (initState : LoopState Doc) := by
  refine ⟨⟨by simp [initState], by simp [initState]⟩, by simp [initState], ?_, ?_, ?_⟩
  · simp [initState, NewBatch]
  · simp [initState, NewBatch]
  · simp only [initState, NewBatch, List.length_nil]; omega

/-- The run when the loop was left by an early `return err`. -/
theorem indexBeer_of_loop_err (w : World Doc) (es : List GoString) (s : LoopState Doc)
    (err : GoError) (hD : w.ReadDir w.jsonDir = .ok es)
    (hL : indexLoop w es initState = (s, some err)) :
    indexBeer w = { calls := s.calls, outcome := .returned (some err) } := by
  simp [indexBeer, hD, hL]

/-- The run when the loop ran to its end with an open batch that is not empty. -/
theorem indexBeer_of_loop_flush (w : World Doc) (es : List GoString) (s : LoopState Doc)
    (hD : w.ReadDir w.jsonDir = .ok es) (hL : indexLoop w es initState = (s, none))
    (hc : s.batchCount > 0) :
    indexBeer w =
      match w.IndexBatch (s.calls.map (·.batch)) s.batch with
      | some err => { calls := s.calls ++ [⟨s.batch, some err⟩], outcome := .fatal err }
      | none => { calls := s.calls ++ [⟨s.batch, none⟩], outcome := .returned none } := by
  simp [indexBeer, hD, hL, hc]

/-- The run when the loop ran to its end with an empty open batch. -/
theorem indexBeer_of_loop_empty (w : World Doc) (es : List GoString) (s : LoopState Doc)
    (hD : w.ReadDir w.jsonDir = .ok es) (hL : indexLoop w es initState = (s, none))
    (hc : ¬ s.batchCount > 0) :
    indexBeer w = { calls := s.calls, outcome := .returned none } := by
  simp [indexBeer, hD, hL, hc]

theorem flatOps_length (B : Nat) (calls : List (BatchCall Doc))
    (h : ∀ c ∈ calls, c.batch.ops.length = B) : (flatOps calls).length = calls.length * B := by
  induction calls with
  | nil => simp [flatOps]
  | cons c cs ih =>
    have h1 := h c (List.mem_cons_self _ _)
    have h2 := ih (fun c hc => h c (List.mem_cons_of_mem _ hc))
    simp only [flatOps, List.map_cons, List.flatten_cons, List.length_append,
      List.length_cons] at h2 ⊢
    rw [h1, h2]; ring

theorem flatOps_append (a b : List (BatchCall Doc)) :
    flatOps (a ++ b) = flatOps a ++ flatOps b := by
  simp [flatOps]

theorem parsedPairs_length (w : World Doc) (es : List GoString) (h : ∀ f ∈ es, Loads w f) :
    (parsedPairs w es).length = es.length := by
  induction es with
  | nil => simp [parsedPairs]
  | cons e es ih =>
    obtain ⟨bs, d, hR, hU⟩ := h e (List.mem_cons_self _ _)
    have h2 := ih (fun f hf => h f (List.mem_cons_of_mem _ hf))
    simp only [parsedPairs] at h2 ⊢
    simp [List.filterMap_cons, hR, hU, h2]

/-- Each pair of `parsedPairs` belongs to the file at the same place of the
listing: its identifier is the `docID` of the filename and its document is what
the file decodes to. -/
theorem parsedPairs_forall₂ (w : World Doc) (es : List GoString) (h : ∀ f ∈ es, Loads w f) :
    List.Forall₂
      (fun f p => p.1 = docID f ∧
        ∃ bs, w.ReadFile (filePath w f) = .ok bs ∧ w.Unmarshal bs = .ok p.2)
      es (parsedPairs w es) := by
  induction es with
  | nil => simp [parsedPairs]
  | cons e es ih =>
    obtain ⟨bs, d, hR, hU⟩ := h e (List.mem_cons_self _ _)
    have h2 := ih (fun f hf => h f (List.mem_cons_of_mem _ hf))
    have hp : parsedPairs w (e :: es) = (docID e, d) :: parsedPairs w es := by
      simp [parsedPairs, List.filterMap_cons, hR, hU]
    rw [hp]
    exact List.Forall₂.cons ⟨rfl, bs, hR, hU⟩ h2

/-- The state in which the loop ends over a listing whose files all load, when
every batch is accepted. -/
theorem indexLoop_success (w : World Doc) (B : Nat) (hB : 1 ≤ B) (hw : w.batchSize = (B : Int))
    (hE : EngineAccepts w) (es : List GoString) (hes : ∀ f ∈ es, Loads w f) :
    ∃ s : LoopState Doc, indexLoop w es initState = (s, none) ∧
      CallsOK B s.calls ∧ OpenOK B s ∧ (∀ c ∈ s.calls, c.err = none) ∧
      flatOps s.calls ++ s.batch.ops = parsedPairs w es ∧
      s.calls.length * B + s.batch.ops.length = es.length := by
  have hn := indexLoop_loads_none w hE es initState hes
  obtain ⟨hc0, ho0⟩ := @initState_ok Doc B hB
  obtain ⟨hc, ho⟩ := indexLoop_inv w B hw es initState hc0 ho0
  have hcont := indexLoop_content w es initState hn
  have herr := indexLoop_none_errs w es initState (by simp [initState]) hn
  refine ⟨(indexLoop w es initState).1, ?_, hc, ho hn, herr, ?_, ?_⟩
  · exact Prod.ext rfl hn
  · simpa [initState, flatOps, NewBatch] using hcont
  · have hl := congrArg List.length hcont
    rw [List.length_append, flatOps_length B _ hc.1] at hl
    simpa [initState, flatOps, NewBatch, parsedPairs_length w es hes] using hl

theorem loads_of_loadsB (w : World Doc) (f : GoString) (h : loadsB w f = true) : Loads w f := by
  unfold loadsB at h
  split at h
  · simp at h
  · rename_i bs hR
    split at h
    · simp at h
    · rename_i d hU
      exact ⟨bs, d, hR, hU⟩

/-- The call log of any run with batch size `B ≥ 1`: either a well-formed log
of full batches, or such a log followed by one flush of a non-empty open batch
that is not full. -/
theorem indexBeer_calls_shape (w : World Doc) (B : Nat) (hB : 1 ≤ B)
    (hw : w.batchSize = (B : Int)) :
    ∃ s : LoopState Doc, CallsOK B s.calls ∧
      ((indexBeer w).calls = s.calls ∨
        (OpenOK B s ∧ 0 < s.batch.ops.length ∧
          ∃ e, (indexBeer w).calls = s.calls ++ [⟨s.batch, e⟩])) := by
  obtain ⟨hc0, ho0⟩ := @initState_ok Doc B hB
  cases hD : w.ReadDir w.jsonDir with
  | error err =>
    exact ⟨initState, hc0, Or.inl (by simp [indexBeer, hD, initState])⟩
  | ok es =>
    obtain ⟨hc, ho⟩ := indexLoop_inv w B hw es initState hc0 ho0
    cases hL : indexLoop w es initState with
    | mk s oerr =>
      rw [hL] at hc ho
      refine ⟨s, hc, ?_⟩
      cases oerr with
      | some err =>
        exact Or.inl (by rw [indexBeer_of_loop_err w es s err hD hL])
      | none =>
        have hos := ho rfl
        by_cases hr : s.batchCount > 0
        · right
          refine ⟨hos, ?_, ?_⟩
          · have := hos.2.2.1
            rw [this] at hr; exact_mod_cast hr
          · rw [indexBeer_of_loop_flush w es s hD hL hr]
            cases w.IndexBatch (s.calls.map (·.batch)) s.batch with
            | some err => exact ⟨some err, rfl⟩
            | none => exact ⟨none, rfl⟩
        · exact Or.inl (by rw [indexBeer_of_loop_empty w es s hD hL hr])

theorem not_loads_of_loadsB (w : World Doc) (f : GoString) (h : loadsB w f = false) :
    ¬ Loads w f := by
  rintro ⟨bs, d, hR, hU⟩
  simp [loadsB, hR, hU] at h

/-- A run that returned `nil` read the directory, met only files that load and
made only successful `i.Batch` calls. -/
theorem indexBeer_returned_nil (w : World Doc) (h : (indexBeer w).outcome = .returned none) :
    (∃ es, w.ReadDir w.jsonDir = .ok es ∧ ∀ f ∈ es, Loads w f) ∧
      ∀ c ∈ (indexBeer w).calls, c.err = none := by
  cases hD : w.ReadDir w.jsonDir with
  | error err => simp [indexBeer, hD] at h
  | ok es =>
    cases hL : indexLoop w es initState with
    | mk s oerr =>
      cases oerr with
      | some err =>
        rw [indexBeer_of_loop_err w es s err hD hL] at h
        simp at h
      | none =>
        have hn : (indexLoop w es initState).2 = none := by rw [hL]
        have hloads := indexLoop_none_loads w es initState hn
        have herr := indexLoop_none_errs w es initState (by simp [initState]) hn
        rw [hL] at herr
        refine ⟨⟨es, rfl, hloads⟩, ?_⟩
        by_cases hr : s.batchCount > 0
        · have hrun := indexBeer_of_loop_flush w es s hD hL hr
          cases hE : w.IndexBatch (s.calls.map (·.batch)) s.batch with
          | some err =>
            rw [hE] at hrun
            rw [hrun] at h
            simp at h
          | none =>
            rw [hE] at hrun
            rw [hrun]
            intro c hc
            rcases List.mem_append.1 hc with hc | hc
            · exact herr c hc
            · simp at hc; simp [hc]
        · rw [indexBeer_of_loop_empty w es s hD hL hr]
          exact herr

/-! ### What a batch holds -/

theorem held_concat (ops : List (GoString × Doc)) (p : GoString × Doc) :
    held (ops ++ [p]) =
      if p.1 = [] then held ops else ((held ops).filter fun q => q.1 ≠ p.1) ++ [p] := by
  simp [held, List.foldl_append]

/-- `Index` keeps the map in step with the trace of calls. -/
theorem Batch.Index_held (b : Batch Doc) (id : GoString) (doc : Doc)
    (h : b.IndexOps = held b.ops) :
    (b.Index id doc).1.IndexOps = held (b.Index id doc).1.ops := by
  rw [Batch.Index_ops, held_concat]
  unfold Batch.Index
  by_cases hid : id = []
  · simp [hid, h]
  · simp [hid, h]

theorem foldl_store_length (ops : List (GoString × Doc)) :
    ∀ m : List (GoString × Doc),
      (ops.foldl (fun m p => if p.1 = [] then m else (m.filter fun q => q.1 ≠ p.1) ++ [p])
        m).length ≤ m.length + ops.length := by
  induction ops with
  | nil => intro m; simp
  | cons p ps ih =>
    intro m
    rw [List.foldl_cons]
    refine le_trans (ih _) ?_
    by_cases hp : p.1 = []
    · simp [hp]
    · have := List.length_filter_le (fun q : GoString × Doc => decide (q.1 ≠ p.1)) m
      simp only [hp, if_false, List.length_append, List.length_singleton, List.length_cons,
        List.length_nil]
      omega

/-- A batch never holds more documents than `Index` calls were made on it. -/
theorem held_length_le (ops : List (GoString × Doc)) : (held ops).length ≤ ops.length := by
  have := foldl_store_length ops []
  simpa [held] using this

theorem foldl_store_distinct (ops : List (GoString × Doc)) :
    ∀ m : List (GoString × Doc), (∀ p ∈ ops, p.1 ≠ []) → (ops.map Prod.fst).Nodup →
      (∀ p ∈ ops, ∀ q ∈ m, q.1 ≠ p.1) →
      ops.foldl (fun m p => if p.1 = [] then m else (m.filter fun q => q.1 ≠ p.1) ++ [p]) m =
        m ++ ops := by
  induction ops with
  | nil => intro m _ _ _; simp
  | cons p ps ih =>
    intro m hne hnd hdis
    rw [List.foldl_cons]
    have hp : p.1 ≠ [] := hne p (List.mem_cons_self _ _)
    have hfil : (m.filter fun q => q.1 ≠ p.1) = m := by
      rw [List.filter_eq_self]
      intro q hq
      simpa using hdis p (List.mem_cons_self _ _) q hq
    rw [if_neg hp, hfil]
    rw [List.map_cons, List.nodup_cons] at hnd
    rw [ih (m ++ [p]) (fun r hr => hne r (List.mem_cons_of_mem _ hr)) hnd.2 ?_]
    · simp
    · intro r hr q hq
      rcases List.mem_append.1 hq with hq | hq
      · exact hdis r (List.mem_cons_of_mem _ hr) q hq
      · simp at hq
        rw [hq]
        intro heq
        exact hnd.1 (heq ▸ List.mem_map_of_mem Prod.fst hr)

/-- When the identifiers passed to `Index` are non-empty and pairwise distinct,
the batch holds exactly the documents passed, in call order. -/
theorem held_eq_self (ops : List (GoString × Doc)) (hne : ∀ p ∈ ops, p.1 ≠ [])
    (hnd : (ops.map Prod.fst).Nodup) : held ops = ops := by
  have := foldl_store_distinct ops [] hne hnd (by simp)
  simpa [held] using this

/-- Every batch the loop hands over, and the open batch when the loop runs to
its end, holds what its `Index` calls put into it. -/
theorem indexLoop_wf (w : World Doc) (es : List GoString) :
    ∀ s : LoopState Doc, (∀ c ∈ s.calls, c.batch.IndexOps = held c.batch.ops) →
      s.batch.IndexOps = held s.batch.ops →
      (∀ c ∈ (indexLoop w es s).1.calls, c.batch.IndexOps = held c.batch.ops) ∧
        (indexLoop w es s).1.batch.IndexOps = held (indexLoop w es s).1.batch.ops := by
  induction es with
  | nil => intro s hc hb; exact ⟨hc, hb⟩
  | cons e es ih =>
    intro s hc hb
    unfold indexLoop
    split
    · exact ⟨hc, hb⟩
    · split
      · exact ⟨hc, hb⟩
      · rename_i d hU
        have hb2 := Batch.Index_held s.batch (docID e) d hb
        have hc2 : ∀ err, ∀ c ∈ s.calls ++ [⟨(s.batch.Index (docID e) d).1, err⟩],
            c.batch.IndexOps = held c.batch.ops := by
          intro err c hcm
          rcases List.mem_append.1 hcm with hcm | hcm
          · exact hc c hcm
          · simp at hcm; rw [hcm]; exact hb2
        dsimp only
        split
        · split
          · exact ⟨hc2 _, hb2⟩
          · exact ih _ (hc2 _) (by simp [NewBatch, held])
        · exact ih _ hc hb2

/-- The call log of a run is empty, or it is the log the loop left, possibly
followed by the flush of the open batch. -/
theorem indexBeer_calls_cases (w : World Doc) :
    (indexBeer w).calls = [] ∨
      ∃ es s oerr, w.ReadDir w.jsonDir = .ok es ∧ indexLoop w es initState = (s, oerr) ∧
        ((indexBeer w).calls = s.calls ∨
          ∃ e, (indexBeer w).calls = s.calls ++ [⟨s.batch, e⟩]) := by
  cases hD : w.ReadDir w.jsonDir with
  | error err => exact Or.inl (by simp [indexBeer, hD])
  | ok es =>
    right
    cases hL : indexLoop w es initState with
    | mk s oerr =>
      refine ⟨es, s, oerr, rfl, hL, ?_⟩
      cases oerr with
      | some err => exact Or.inl (by rw [indexBeer_of_loop_err w es s err hD hL])
      | none =>
        by_cases hr : s.batchCount > 0
        · right
          rw [indexBeer_of_loop_flush w es s hD hL hr]
          cases w.IndexBatch (s.calls.map (·.batch)) s.batch with
          | some err => exact ⟨some err, rfl⟩
          | none => exact ⟨none, rfl⟩
        · exact Or.inl (by rw [indexBeer_of_loop_empty w es s hD hL hr])

/-- Every batch handed to `i.Batch` holds what its `Index` calls put into it. -/
theorem indexBeer_wf (w : World Doc) :
    ∀ b ∈ (indexBeer w).batches, b.IndexOps = held b.ops := by
  intro b hb
  rw [Run.batches] at hb
  obtain ⟨c, hc, rfl⟩ := List.mem_map.1 hb
  rcases indexBeer_calls_cases w with h | ⟨es, s, oerr, -, hL, h⟩
  · rw [h] at hc; simp at hc
  · have hwf := indexLoop_wf w es initState (by simp [initState]) (by simp [initState, NewBatch, held])
    rw [hL] at hwf
    rcases h with h | ⟨e, h⟩
    · rw [h] at hc; exact hwf.1 c hc
    · rw [h] at hc
      rcases List.mem_append.1 hc with hc | hc
      · exact hwf.1 c hc
      · simp at hc; rw [hc]; exact hwf.2

/-! ### Batches as consecutive groups of the listing -/

/-- In a list of groups that are all of size `B` except possibly the last, each
group is `B` consecutive entries of the concatenation, starting at a multiple
of `B`. -/
theorem mem_groups {α γ : Type} (f : γ → List α) (B : Nat) (L : List γ)
    (hfull : ∀ b ∈ L.dropLast, (f b).length = B) (hle : ∀ b ∈ L, (f b).length ≤ B) :
    ∀ b ∈ L, ∃ k, f b = (((L.map f).flatten).drop (k * B)).take B := by
  induction L with
  | nil => intro b hb; simp at hb
  | cons a L ih =>
    intro b hb
    rcases List.mem_cons.1 hb with rfl | hb
    · refine ⟨0, ?_⟩
      cases L with
      | nil =>
        have := hle b (List.mem_cons_self _ _)
        simp [List.take_of_length_le this]
      | cons a2 L2 =>
        have hB : (f b).length = B := hfull b (by simp [List.dropLast])
        simp only [Nat.zero_mul, List.drop_zero, List.map_cons, List.flatten_cons]
        rw [← hB, List.take_left]
    · have hne : L ≠ [] := List.ne_nil_of_mem hb
      have hdl : (a :: L).dropLast = a :: L.dropLast := by
        cases L with
        | nil => exact absurd rfl hne
        | cons a2 L2 => rfl
      have hB : (f a).length = B := hfull a (by rw [hdl]; exact List.mem_cons_self _ _)
      obtain ⟨k, hk⟩ := ih (fun b hb => hfull b (by rw [hdl]; exact List.mem_cons_of_mem _ hb))
        (fun b hb => hle b (List.mem_cons_of_mem _ hb)) b hb
      refine ⟨k + 1, ?_⟩
      rw [hk, List.map_cons, List.flatten_cons]
      have : (k + 1) * B = (f a).length + k * B := by rw [hB]; ring
      rw [this, List.drop_append]

/-- Identifiers that are distinct within each batch are pairwise distinct in
every group of `B` consecutive ones starting at a multiple of `B`. -/
theorem nodup_group (B : Nat) (hB : 1 ≤ B) (ids : List GoString)
    (h : DistinctInBatch B ids) (k : Nat) : ((ids.drop (k * B)).take B).Nodup := by
  rw [List.nodup_iff_getElem?_ne_getElem?]
  intro i j hij hj
  have hjB : j < B := by
    have := List.length_take_le B (ids.drop (k * B))
    omega
  have hjl : k * B + j < ids.length := by
    rw [List.length_take, List.length_drop] at hj
    omega
  rw [List.getElem?_take_of_lt (by omega), List.getElem?_take_of_lt hjB,
    List.getElem?_drop, List.getElem?_drop]
  apply h (k * B + i) (k * B + j) (by omega) hjl
  have h1 : (k * B + i) / B = k := by
    rw [Nat.mul_comm, Nat.mul_add_div (by omega), Nat.div_eq_of_lt (by omega)]; rfl
  have h2 : (k * B + j) / B = k := by
    rw [Nat.mul_comm, Nat.mul_add_div (by omega), Nat.div_eq_of_lt hjB]; rfl
  rw [h1, h2]

/-- Pairwise distinct identifiers are distinct within each batch. -/
theorem distinctInBatch_of_nodup (B : Nat) (ids : List GoString) (h : ids.Nodup) :
    DistinctInBatch B ids := by
  intro i j hij hj _
  exact (List.nodup_iff_getElem?_ne_getElem?.1 h) i j hij hj

theorem parsedPairs_fst (w : World Doc) (es : List GoString) (h : ∀ f ∈ es, Loads w f) :
    (parsedPairs w es).map Prod.fst = es.map docID := by
  induction es with
  | nil => simp [parsedPairs]
  | cons e es ih =>
    obtain ⟨bs, d, hR, hU⟩ := h e (List.mem_cons_self _ _)
    have h2 := ih (fun f hf => h f (List.mem_cons_of_mem _ hf))
    have hp : parsedPairs w (e :: es) = (docID e, d) :: parsedPairs w es := by
      simp [parsedPairs, List.filterMap_cons, hR, hU]
    rw [hp, List.map_cons, List.map_cons, h2]

/-- A list of batches whose traces are groups of `B` consecutive entries of
`xs`, with identifiers that are non-empty and distinct within each batch, holds
exactly `xs`. -/
theorem held_groups (B : Nat) (hB : 1 ≤ B) (L : List (Batch Doc)) (xs : List (GoString × Doc))
    (hflat : (L.map (·.ops)).flatten = xs)
    (hfull : ∀ b ∈ L.dropLast, b.ops.length = B) (hle : ∀ b ∈ L, b.ops.length ≤ B)
    (hwf : ∀ b ∈ L, b.IndexOps = held b.ops)
    (hne : ∀ p ∈ xs, p.1 ≠ []) (hdist : DistinctInBatch B (xs.map Prod.fst)) :
    (L.map (·.IndexOps)).flatten = xs := by
  have hsame : ∀ b ∈ L, b.IndexOps = b.ops := by
    intro b hb
    rw [hwf b hb]
    obtain ⟨k, hk⟩ := mem_groups (fun b : Batch Doc => b.ops) B L hfull hle b hb
    rw [hflat] at hk
    apply held_eq_self
    · intro p hp
      rw [hk] at hp
      exact hne p (List.drop_subset _ _ (List.take_subset _ _ hp))
    · rw [hk, List.map_take, List.map_drop]
      exact nodup_group B hB _ hdist k
  rw [List.map_congr_left hsame, hflat]

/-- The batches of any run with batch size `B ≥ 1`, by the number of `Index`
calls made on them: between 1 and `B`, exactly `B` for all but the last, and
no batch object handed over twice. -/
theorem indexBeer_ops_shape (w : World Doc) (B : Nat) (hB : 1 ≤ B)
    (hw : w.batchSize = (B : Int)) :
    (∀ b ∈ (indexBeer w).batches, 0 < b.ops.length ∧ b.ops.length ≤ B) ∧
      (∀ b ∈ (indexBeer w).batches.dropLast, b.ops.length = B) ∧
      ((indexBeer w).batches.map (·.id)).Nodup := by
  obtain ⟨s, ⟨hc1, hc2⟩, hshape⟩ := indexBeer_calls_shape w B hB hw
  have hnd : ∀ l : List Nat, l.Pairwise (· < ·) → l.Nodup := fun l hl =>
    List.Pairwise.imp (fun h => Nat.ne_of_lt h) hl
  refine ⟨?_, ?_, ?_⟩
  · rcases hshape with h | ⟨ho, hpos, e, h⟩
    · intro b hb
      rw [Run.batches, h] at hb
      obtain ⟨c, hc, rfl⟩ := List.mem_map.1 hb
      rw [hc1 c hc]; omega
    · intro b hb
      rw [Run.batches, h, List.map_append] at hb
      rcases List.mem_append.1 hb with hb | hb
      · obtain ⟨c, hc, rfl⟩ := List.mem_map.1 hb
        rw [hc1 c hc]; omega
      · simp at hb
        rw [hb]; exact ⟨hpos, Nat.le_of_lt ho.2.2.2⟩
  · rcases hshape with h | ⟨ho, hpos, e, h⟩
    · intro b hb
      have hb2 := List.dropLast_subset _ hb
      rw [Run.batches, h] at hb2
      obtain ⟨c, hc, rfl⟩ := List.mem_map.1 hb2
      exact hc1 c hc
    · intro b hb
      rw [Run.batches, h, List.map_append, List.map_singleton, List.dropLast_concat] at hb
      obtain ⟨c, hc, rfl⟩ := List.mem_map.1 hb
      exact hc1 c hc
  · rcases hshape with h | ⟨ho, hpos, e, h⟩
    · rw [Run.batches, h, List.map_map]
      exact hnd _ hc2
    · rw [Run.batches, h, List.map_map]
      apply hnd
      rw [List.map_append, List.pairwise_append]
      refine ⟨hc2, by simp, ?_⟩
      intro a ha b hb
      simp at hb
      obtain ⟨c, hc, rfl⟩ := List.mem_map.1 ha
      rw [hb]; exact ho.1 c hc

theorem batches_ops_flatten (r : Run Doc) : (r.batches.map (·.ops)).flatten = flatOps r.calls := by
  simp [Run.batches, flatOps, List.map_map, Function.comp_def]

/-- In a run over files that all load, with every batch accepted, the documents
passed to `batch.Index` of the batches handed over are, batch after batch, the
pairs of the listing in listing order. -/
theorem indexBeer_success_indexed (w : World Doc) (B : Nat) (hB : 1 ≤ B)
    (hw : w.batchSize = (B : Int)) (hE : EngineAccepts w) (es : List GoString)
    (hD : w.ReadDir w.jsonDir = .ok es) (hes : ∀ f ∈ es, Loads w f) :
    flatOps (indexBeer w).calls = parsedPairs w es := by
  obtain ⟨s, hL, -, ho, -, hcont, -⟩ := indexLoop_success w B hB hw hE es hes
  by_cases hr : s.batchCount > 0
  · have hrun := indexBeer_of_loop_flush w es s hD hL hr
    rw [hE _ _] at hrun
    rw [hrun, ← hcont]
    simp [flatOps]
  · have hrun := indexBeer_of_loop_empty w es s hD hL hr
    have hz : s.batch.ops = [] := by
      have h3 := ho.2.2.1
      rw [h3] at hr
      exact List.length_eq_zero.1 (by omega)
    rw [hrun, ← hcont, hz, List.append_nil]

end Loop

/-! ## Lemmas on `filepath.Ext` and `docID` -/

theorem ExtLoop_scan (path : GoString) (n : Nat) :
    ∀ k, (∀ i, n ≤ i → i < n + k → path.getD i 0 ≠ dot ∧ IsPathSeparator (path.getD i 0) = false) →
      ExtLoop path (n + k) = ExtLoop path n := by
  intro k
  induction k with
  | zero => intro _; rfl
  | succ k ih =>
    intro h
    obtain ⟨h1, h2⟩ := h (n + k) (by omega) (by omega)
    rw [← Nat.add_assoc, ExtLoop]
    simp only [h2, h1, if_false, Bool.false_eq_true]
    exact ih (fun i hi hk => h i hi (by omega))

theorem ExtLoop_nodot (path : GoString) :
    ∀ n, (∀ i, i < n → path.getD i 0 ≠ dot) → ExtLoop path n = [] := by
  intro n
  induction n with
  | zero => intro _; rfl
  | succ n ih =>
    intro h
    rw [ExtLoop]
    split
    · rfl
    · rw [if_neg (h n (by omega))]
      exact ih (fun i hi => h i (by omega))

theorem ExtLoop_dot (path : GoString) (n : Nat) (h : path.getD n 0 = dot) :
    ExtLoop path (n + 1) = path.drop n := by
  rw [ExtLoop, h]
  simp [IsPathSeparator, dot]

theorem getD_of_mem_free (l : GoString) (P : UInt8 → Prop) (h0 : P 0) (h : ∀ c ∈ l, P c) (i : Nat) :
    P (l.getD i 0) := by
  by_cases hi : i < l.length
  · rw [List.getD_eq_getElem _ _ hi]
    exact h _ (List.getElem_mem _)
  · rw [List.getD_eq_default _ _ (by omega)]
    exact h0

theorem docID_nodot (f : GoString) (h : dot ∉ f) : docID f = f := by
  have : Ext f = [] := by
    apply ExtLoop_nodot
    intro i hi
    rw [List.getD_eq_getElem _ _ hi]
    intro hd
    exact h (hd ▸ List.getElem_mem _)
  simp [docID, this]

theorem docID_split (pre suf : GoString) (hdot : dot ∉ suf)
    (hsep : ∀ c ∈ suf, IsPathSeparator c = false) : docID (pre ++ dot :: suf) = pre := by
  have hlen : (pre ++ dot :: suf).length = (pre.length + 1) + suf.length := by
    simp; omega
  have hE : Ext (pre ++ dot :: suf) = dot :: suf := by
    rw [Ext, hlen, ExtLoop_scan, ExtLoop_dot]
    · simp
    · rw [List.getD_append_right _ _ _ _ (Nat.le_refl _)]
      simp
    · intro i h1 h2
      have hget : (pre ++ dot :: suf).getD i 0 = suf.getD (i - (pre.length + 1)) 0 := by
        rw [List.getD_append_right _ _ _ _ (by omega)]
        have : i - pre.length = (i - (pre.length + 1)) + 1 := by omega
        rw [this, List.getD_cons_succ]
      rw [hget]
      exact getD_of_mem_free suf (fun c => c ≠ dot ∧ IsPathSeparator c = false)
        (by decide) (fun c hc => ⟨fun hd => hdot (hd ▸ hc), hsep c hc⟩) _
  simp [docID, hE]

/-! ## Claims on ingestion -/

/-- C1 (batch coherence, count).  For a listing of `N` files that all read and
decode, a batch size `B ≥ 1` and an engine that accepts every batch, `indexBeer`
returns `nil` after exactly `⌈N / B⌉` calls of `i.Batch`, none of which failed;
the batches have had `B` documents each passed to `batch.Index`, followed by one
with `N % B` documents passed when `B` does not divide `N`. -/
theorem C1_batch_count {Doc : Type} (w : World Doc) (B : Nat) (hB : 1 ≤ B)
    (hw : w.batchSize = (B : Int)) (hE : EngineAccepts w) (es : List GoString)
    (hD : w.ReadDir w.jsonDir = .ok es) (hes : ∀ f ∈ es, Loads w f) :
    ((indexBeer w).calls.length : Int) = ⌈(es.length : ℚ) / (B : ℚ)⌉ ∧
      (indexBeer w).batches.map (fun b => b.ops.length) =
        List.replicate (es.length / B) B ++
          (if es.length % B = 0 then [] else [es.length % B]) ∧
      (∀ c ∈ (indexBeer w).calls, c.err = none) ∧
      (indexBeer w).outcome = .returned none := by
  obtain ⟨s, hL, hc, ho, herr, -, hlen⟩ := indexLoop_success w B hB hw hE es hes
  obtain ⟨-, -, ho3, ho4⟩ := ho
  have hdm : es.length / B = s.calls.length ∧ es.length % B = s.batch.ops.length := by
    rw [Nat.div_mod_unique (by omega)]
    refine ⟨?_, ho4⟩
    rw [← hlen]; ring
  have hBq : (0 : ℚ) < (B : ℚ) := by exact_mod_cast hB
  have hNq : (es.length : ℚ) = (s.calls.length : ℚ) * (B : ℚ) + (s.batch.ops.length : ℚ) := by
    exact_mod_cast hlen.symm
  have hrq : (s.batch.ops.length : ℚ) < (B : ℚ) := by exact_mod_cast ho4
  have hsizes : s.calls.map (fun c => c.batch.ops.length) = List.replicate s.calls.length B := by
    rw [List.eq_replicate_iff]
    refine ⟨by simp, ?_⟩
    intro n hn
    obtain ⟨c, hc', rfl⟩ := List.mem_map.1 hn
    exact hc.1 c hc'
  by_cases hr : s.batchCount > 0
  · have hrun := indexBeer_of_loop_flush w es s hD hL hr
    rw [hE _ _] at hrun
    have hpos : 0 < s.batch.ops.length := by rw [ho3] at hr; exact_mod_cast hr
    have hposq : (0 : ℚ) < (s.batch.ops.length : ℚ) := by exact_mod_cast hpos
    rw [hrun, hdm.1, hdm.2]
    refine ⟨?_, ?_, ?_, rfl⟩
    · symm
      rw [Int.ceil_eq_iff, lt_div_iff₀ hBq, div_le_iff₀ hBq, hNq]
      constructor
      · simp only [List.length_append, List.length_singleton]; push_cast; nlinarith
      · simp only [List.length_append, List.length_singleton]; push_cast; nlinarith
    · simp only [Run.batches, List.map_append, List.map_map, List.map_cons, List.map_nil,
        if_neg (Nat.ne_of_gt hpos)]
      exact congrArg (· ++ [s.batch.ops.length]) hsizes
    · intro c hc'
      rcases List.mem_append.1 hc' with hc' | hc'
      · exact herr c hc'
      · simp at hc'; simp [hc']
  · have hrun := indexBeer_of_loop_empty w es s hD hL hr
    have hz : s.batch.ops.length = 0 := by rw [ho3] at hr; omega
    rw [hz] at hNq
    rw [hrun, hdm.1, hdm.2]
    refine ⟨?_, ?_, herr, rfl⟩
    · symm
      rw [Int.ceil_eq_iff, lt_div_iff₀ hBq, div_le_iff₀ hBq, hNq]
      constructor
      · push_cast; nlinarith
      · push_cast; nlinarith
    · simp only [Run.batches, List.map_map, hz, if_true, List.append_nil]
      exact hsizes

/-- C1, at five files and batch size 2: three calls, of sizes 2, 2 and 1. -/
theorem C1_batch_count_witness :
    ((indexBeer fiveWorld).calls.length : Int) = ⌈((5 : ℕ) : ℚ) / ((2 : ℕ) : ℚ)⌉ ∧
      (indexBeer fiveWorld).batches.map (fun b => b.ops.length) =
        List.replicate (5 / 2) 2 ++ (if 5 % 2 = 0 then [] else [5 % 2]) ∧
      (∀ c ∈ (indexBeer fiveWorld).calls, c.err = none) ∧
      (indexBeer fiveWorld).outcome = .returned none :=
  C1_batch_count fiveWorld 2 (by decide) rfl (fun _ _ => rfl) fiveNames rfl
    (fun f hf => loads_of_loadsB _ f
      ((by decide : ∀ f ∈ fiveNames, loadsB fiveWorld f = true) f hf))

/-- C2 as stated fails: a file named `.json` gets the empty identifier, which
`batch.Index` refuses (the error is discarded on line 265), so its document is
in no submitted batch; and of two files with the same stem in one batch only
the later document stays in the batch. -/
theorem C2_counterexample :
    (emptyIdWorld.batchSize = 1 ∧ EngineAccepts emptyIdWorld ∧
      emptyIdWorld.ReadDir emptyIdWorld.jsonDir =
        .ok [asciiBytes ".json", asciiBytes "a.json"] ∧
      (∀ f ∈ [asciiBytes ".json", asciiBytes "a.json"], Loads emptyIdWorld f) ∧
      parsedPairs emptyIdWorld [asciiBytes ".json", asciiBytes "a.json"] =
        [([], 2), (asciiBytes "a", 2)] ∧
      (indexBeer emptyIdWorld).batches.map (·.IndexOps) = [[], [(asciiBytes "a", 2)]] ∧
      (indexBeer emptyIdWorld).submitted ≠
        parsedPairs emptyIdWorld [asciiBytes ".json", asciiBytes "a.json"]) ∧
    (sameStemWorld.batchSize = 2 ∧ EngineAccepts sameStemWorld ∧
      sameStemWorld.ReadDir sameStemWorld.jsonDir =
        .ok [asciiBytes "a.json", asciiBytes "a.txt", asciiBytes "b.json"] ∧
      (∀ f ∈ [asciiBytes "a.json", asciiBytes "a.txt", asciiBytes "b.json"],
        Loads sameStemWorld f) ∧
      parsedPairs sameStemWorld [asciiBytes "a.json", asciiBytes "a.txt", asciiBytes "b.json"] =
        [(asciiBytes "a", 2), (asciiBytes "a", 3), (asciiBytes "b", 2)] ∧
      (indexBeer sameStemWorld).batches.map (·.IndexOps) =
        [[(asciiBytes "a", 3)], [(asciiBytes "b", 2)]] ∧
      (indexBeer sameStemWorld).submitted ≠
        parsedPairs sameStemWorld
          [asciiBytes "a.json", asciiBytes "a.txt", asciiBytes "b.json"]) := by
  refine ⟨⟨rfl, fun _ _ => rfl, rfl, ?_, by decide, by decide, by decide⟩,
    ⟨rfl, fun _ _ => rfl, rfl, ?_, by decide, by decide, by decide⟩⟩
  · intro f hf
    exact loads_of_loadsB _ f
      ((by decide : ∀ f ∈ [asciiBytes ".json", asciiBytes "a.json"],
        loadsB emptyIdWorld f = true) f hf)
  · intro f hf
    exact loads_of_loadsB _ f
      ((by decide : ∀ f ∈ [asciiBytes "a.json", asciiBytes "a.txt", asciiBytes "b.json"],
        loadsB sameStemWorld f = true) f hf)

/-- C2, amended (batch coherence, partition and order).  For a listing whose
files all read and decode, a batch size `B ≥ 1` and an engine that accepts every
batch: the documents passed to `batch.Index`, batch after batch in submission
order, are the `(docID, document)` pairs of the listing in listing order; and
when every identifier is non-empty and no two files of the same batch share an
identifier, the submitted batches hold, concatenated in submission order,
exactly those pairs, the pair at each place carrying the `docID` of the filename
at that place and the document its bytes decode to. -/
theorem C2_batch_partition_distinct_ids {Doc : Type} (w : World Doc) (B : Nat) (hB : 1 ≤ B)
    (hw : w.batchSize = (B : Int)) (hE : EngineAccepts w) (es : List GoString)
    (hD : w.ReadDir w.jsonDir = .ok es) (hes : ∀ f ∈ es, Loads w f) :
    ((indexBeer w).batches.map (·.ops)).flatten = parsedPairs w es ∧
      ((∀ f ∈ es, docID f ≠ []) → DistinctInBatch B (es.map docID) →
        (indexBeer w).submitted = parsedPairs w es ∧
          List.Forall₂
            (fun f p => p.1 = docID f ∧
              ∃ bs, w.ReadFile (filePath w f) = .ok bs ∧ w.Unmarshal bs = .ok p.2)
            es (indexBeer w).submitted) := by
  have hflat : ((indexBeer w).batches.map (·.ops)).flatten = parsedPairs w es := by
    rw [batches_ops_flatten]
    exact indexBeer_success_indexed w B hB hw hE es hD hes
  refine ⟨hflat, ?_⟩
  intro hne hdist
  obtain ⟨hsz, hfull, -⟩ := indexBeer_ops_shape w B hB hw
  have hfst := parsedPairs_fst w es hes
  have key : (indexBeer w).submitted = parsedPairs w es := by
    apply held_groups B hB (indexBeer w).batches (parsedPairs w es) hflat hfull
      (fun b hb => (hsz b hb).2) (indexBeer_wf w)
    · intro p hp
      have hm : p.1 ∈ (parsedPairs w es).map Prod.fst := List.mem_map_of_mem Prod.fst hp
      rw [hfst] at hm
      obtain ⟨f, hf, hfp⟩ := List.mem_map.1 hm
      rw [← hfp]; exact hne f hf
    · rw [hfst]; exact hdist
  exact ⟨key, key ▸ parsedPairs_forall₂ w es hes⟩

/-- C2 amended, at five files with distinct stems and batch size 2. -/
theorem C2_batch_partition_distinct_ids_witness :
    (indexBeer fiveWorld).submitted =
      [(asciiBytes "a", 2), (asciiBytes "b", 2), (asciiBytes "c", 2), (asciiBytes "d", 2),
        (asciiBytes "e", 2)] :=
  ((C2_batch_partition_distinct_ids fiveWorld 2 (by decide) rfl (fun _ _ => rfl) fiveNames rfl
    (fun f hf => loads_of_loadsB _ f
      ((by decide : ∀ f ∈ fiveNames, loadsB fiveWorld f = true) f hf))).2
    (by decide) (distinctInBatch_of_nodup 2 _ (by decide))).1.trans (by decide)

/-- C4 as stated fails.  With batch size 2 and a malformed second file, the run
stops with the decoder's error, yet the first document, still in the open
batch, was never handed to the engine.  With batch size 1, a first file named
`.json` and a malformed second file, one batch was handed over, but it is
empty: `batch.Index` refused the empty identifier. -/
theorem C4_counterexample :
    (failFastWorld.batchSize = 2 ∧ EngineAccepts failFastWorld ∧
      failFastWorld.ReadDir failFastWorld.jsonDir =
        .ok ([asciiBytes "a.json"] ++ asciiBytes "b.json" :: []) ∧
      (∀ f ∈ [asciiBytes "a.json"], Loads failFastWorld f) ∧
      Malformed failFastWorld (asciiBytes "b.json") "invalid character" ∧
      (indexBeer failFastWorld).outcome = .returned (some "invalid character") ∧
      parsedPairs failFastWorld [asciiBytes "a.json"] = [(asciiBytes "a", 2)] ∧
      (indexBeer failFastWorld).submitted = [] ∧
      ¬ (∀ p, p ∈ (indexBeer failFastWorld).submitted ↔
          p ∈ parsedPairs failFastWorld [asciiBytes "a.json"])) ∧
    (emptyIdFailWorld.batchSize = 1 ∧ EngineAccepts emptyIdFailWorld ∧
      emptyIdFailWorld.ReadDir emptyIdFailWorld.jsonDir =
        .ok ([asciiBytes ".json"] ++ asciiBytes "b.json" :: []) ∧
      (∀ f ∈ [asciiBytes ".json"], Loads emptyIdFailWorld f) ∧
      Malformed emptyIdFailWorld (asciiBytes "b.json") "invalid character" ∧
      (indexBeer emptyIdFailWorld).outcome = .returned (some "invalid character") ∧
      parsedPairs emptyIdFailWorld [asciiBytes ".json"] = [([], 2)] ∧
      (indexBeer emptyIdFailWorld).batches.map (·.IndexOps) = [[]] ∧
      (indexBeer emptyIdFailWorld).submitted = [] ∧
      ¬ (∀ p, p ∈ (indexBeer emptyIdFailWorld).submitted ↔
          p ∈ parsedPairs emptyIdFailWorld [asciiBytes ".json"])) := by
  refine ⟨⟨rfl, fun _ _ => rfl, rfl, ?_, ⟨asciiBytes "x", rfl, rfl⟩, by decide, by decide,
    by decide, ?_⟩,
    ⟨rfl, fun _ _ => rfl, rfl, ?_, ⟨asciiBytes "x", rfl, rfl⟩, by decide, by decide,
    by decide, by decide, ?_⟩⟩
  · intro f hf
    exact loads_of_loadsB _ f
      ((by decide : ∀ f ∈ [asciiBytes "a.json"], loadsB failFastWorld f = true) f hf)
  · intro h
    have h1 := (h (asciiBytes "a", 2)).2 (by decide)
    have h2 : (indexBeer failFastWorld).submitted = [] := by decide
    rw [h2] at h1
    simp at h1
  · intro f hf
    exact loads_of_loadsB _ f
      ((by decide : ∀ f ∈ [asciiBytes ".json"], loadsB emptyIdFailWorld f = true) f hf)
  · intro h
    have h1 := (h ([], 2)).2 (by decide)
    have h2 : (indexBeer emptyIdFailWorld).submitted = [] := by decide
    rw [h2] at h1
    simp at h1

/-- C4, amended (fail-fast).  When the `k`-th listed file is malformed JSON and
the `k - 1` files before it read and decode, with batch size `B ≥ 1` and an
engine that accepts every batch, `indexBeer` returns the decoder's error and
every `i.Batch` call it made succeeded.  The documents passed to `batch.Index`
of the batches handed over are exactly the first `B * ((k - 1) / B)` documents
in listing order, the complete batches before the malformed file; and when the
identifiers of those files are non-empty and no two of the same batch are
equal, these are exactly the documents submitted to the index. -/
theorem C4_fail_fast_full_batches {Doc : Type} (w : World Doc) (B : Nat) (hB : 1 ≤ B)
    (hw : w.batchSize = (B : Int)) (hE : EngineAccepts w) (pre post : List GoString)
    (bad : GoString) (err : GoError)
    (hD : w.ReadDir w.jsonDir = .ok (pre ++ bad :: post))
    (hpre : ∀ f ∈ pre, Loads w f) (hbad : Malformed w bad err) :
    (indexBeer w).outcome = .returned (some err) ∧
      (∀ c ∈ (indexBeer w).calls, c.err = none) ∧
      ((indexBeer w).batches.map (·.ops)).flatten =
        (parsedPairs w pre).take (B * (pre.length / B)) ∧
      ((∀ f ∈ pre.take (B * (pre.length / B)), docID f ≠ []) →
        DistinctInBatch B ((pre.take (B * (pre.length / B))).map docID) →
        (indexBeer w).submitted = (parsedPairs w pre).take (B * (pre.length / B))) := by
  obtain ⟨s, hL, hc, ho, herr, hcont, hlen⟩ := indexLoop_success w B hB hw hE pre hpre
  obtain ⟨bs, hR, hU⟩ := hbad
  have hL2 : indexLoop w (pre ++ bad :: post) initState = (s, some err) := by
    rw [indexLoop_append w pre (bad :: post) initState (by rw [hL]), hL]
    exact indexLoop_parseError w bad post s bs err hR hU
  have hrun := indexBeer_of_loop_err w (pre ++ bad :: post) s err hD hL2
  have hdm : pre.length / B = s.calls.length ∧ pre.length % B = s.batch.ops.length := by
    rw [Nat.div_mod_unique (by omega)]
    refine ⟨?_, ho.2.2.2⟩
    rw [← hlen]; ring
  have hfl := flatOps_length B s.calls hc.1
  have hflat : ((indexBeer w).batches.map (·.ops)).flatten =
      (parsedPairs w pre).take (B * (pre.length / B)) := by
    rw [batches_ops_flatten, hrun]
    show flatOps s.calls = _
    rw [← hcont, hdm.1, Nat.mul_comm, ← hfl, List.take_left]
  have hfst : ((parsedPairs w pre).take (B * (pre.length / B))).map Prod.fst =
      (pre.take (B * (pre.length / B))).map docID := by
    rw [List.map_take, List.map_take, parsedPairs_fst w pre hpre]
  refine ⟨by rw [hrun], by rw [hrun]; exact herr, hflat, ?_⟩
  intro hne hdist
  obtain ⟨hsz, hfull, -⟩ := indexBeer_ops_shape w B hB hw
  apply held_groups B hB (indexBeer w).batches _ hflat hfull
    (fun b hb => (hsz b hb).2) (indexBeer_wf w)
  · intro p hp
    have hm : p.1 ∈ ((parsedPairs w pre).take (B * (pre.length / B))).map Prod.fst :=
      List.mem_map_of_mem Prod.fst hp
    rw [hfst] at hm
    obtain ⟨f, hf, hfp⟩ := List.mem_map.1 hm
    rw [← hfp]; exact hne f hf
  · rw [hfst]; exact hdist

/-- C4 amended, at three well-formed files followed by a malformed one, with
batch size 2: the first two documents were submitted, the third was not. -/
theorem C4_fail_fast_full_batches_witness :
    (indexBeer lateFailWorld).outcome = .returned (some "invalid character") ∧
      (indexBeer lateFailWorld).submitted = [(asciiBytes "a", 2), (asciiBytes "b", 2)] :=
  have h := C4_fail_fast_full_batches lateFailWorld 2 (by decide) rfl (fun _ _ => rfl)
    [asciiBytes "a.json", asciiBytes "b.json", asciiBytes "c.json"] []
    (asciiBytes "d.json") "invalid character" rfl
    (fun f hf => loads_of_loadsB _ f
      ((by decide : ∀ f ∈ [asciiBytes "a.json", asciiBytes "b.json", asciiBytes "c.json"],
        loadsB lateFailWorld f = true) f hf))
    ⟨asciiBytes "x", rfl, rfl⟩
  ⟨h.1, (h.2.2.2 (by decide) (distinctInBatch_of_nodup 2 _ (by decide))).trans (by decide)⟩

/-- C10 as stated fails: with batch size 1 and a first file named `.json`, the
first batch handed over is empty; with batch size 2 and two files of the same
stem, the first batch handed over, which is not the last, holds one document. -/
theorem C10_counterexample :
    (emptyIdWorld.batchSize = 1 ∧
      (indexBeer emptyIdWorld).batches.map (fun b => b.IndexOps.length) = [0, 1] ∧
      ¬ (∀ b ∈ (indexBeer emptyIdWorld).batches, 0 < b.IndexOps.length)) ∧
    (sameStemWorld.batchSize = 2 ∧
      (indexBeer sameStemWorld).batches.map (fun b => b.IndexOps.length) = [1, 1] ∧
      ¬ (∀ b ∈ (indexBeer sameStemWorld).batches.dropLast, b.IndexOps.length = 2)) := by
  refine ⟨⟨rfl, by decide, by decide⟩, ⟨rfl, by decide, by decide⟩⟩

/-- C10, amended (batch size bound).  For any directory, decoder and engine and
any batch size `B ≥ 1`: every batch handed to `i.Batch` has had at least one and
at most `B` documents passed to `batch.Index` and holds at most `B` documents;
every one but the last handed over has had exactly `B` passed; a batch whose
identifiers were non-empty and pairwise distinct holds exactly the documents
passed to it; the batches handed over are pairwise different batch objects; and
a successful in-loop submission leaves a newly created empty open batch that is
none of the batches handed over so far. -/
theorem C10_batch_calls_bound {Doc : Type} (w : World Doc) (B : Nat) (hB : 1 ≤ B)
    (hw : w.batchSize = (B : Int)) :
    (∀ b ∈ (indexBeer w).batches,
        0 < b.ops.length ∧ b.ops.length ≤ B ∧ b.IndexOps.length ≤ B) ∧
      (∀ b ∈ (indexBeer w).batches.dropLast, b.ops.length = B) ∧
      (∀ b ∈ (indexBeer w).batches, (∀ p ∈ b.ops, p.1 ≠ []) → (b.ops.map Prod.fst).Nodup →
        b.IndexOps = b.ops) ∧
      ((indexBeer w).batches.map (·.id)).Nodup ∧
      (∀ (s : LoopState Doc) (f : GoString) (bs : List UInt8) (d : Doc),
        OpenOK B s → w.ReadFile (filePath w f) = .ok bs → w.Unmarshal bs = .ok d →
        s.batchCount + 1 ≥ w.batchSize →
        w.IndexBatch (s.calls.map (·.batch)) (s.batch.Index (docID f) d).1 = none →
        (indexLoop w [f] s).2 = none ∧
          (indexLoop w [f] s).1.calls = s.calls ++ [⟨(s.batch.Index (docID f) d).1, none⟩] ∧
          (indexLoop w [f] s).1.batch.IndexOps = [] ∧
          (indexLoop w [f] s).1.batch.ops = [] ∧
          (indexLoop w [f] s).1.batchCount = 0 ∧
          ∀ c ∈ (indexLoop w [f] s).1.calls, c.batch.id ≠ (indexLoop w [f] s).1.batch.id) := by
  obtain ⟨hsz, hfull, hids⟩ := indexBeer_ops_shape w B hB hw
  have hwf := indexBeer_wf w
  refine ⟨?_, hfull, ?_, hids, ?_⟩
  · intro b hb
    refine ⟨(hsz b hb).1, (hsz b hb).2, ?_⟩
    rw [hwf b hb]
    exact le_trans (held_length_le _) (hsz b hb).2
  · intro b hb hne hnd
    rw [hwf b hb]
    exact held_eq_self b.ops hne hnd
  · intro s f bs d ho hR hU hfull hacc
    have hstep : indexLoop w [f] s =
        ({ calls := s.calls ++ [⟨(s.batch.Index (docID f) d).1, none⟩],
           created := s.created + 1,
           batch := NewBatch s.created, batchCount := 0, count := s.count + 1 }, none) := by
      simp only [indexLoop, hR, hU, hfull, hacc, if_true]
    rw [hstep]
    refine ⟨rfl, rfl, rfl, rfl, rfl, ?_⟩
    intro c hc
    have hlt : c.batch.id < s.created := by
      rcases List.mem_append.1 hc with hc | hc
      · exact lt_trans (ho.1 c hc) ho.2.1
      · simp at hc; rw [hc]
        show (s.batch.Index (docID f) d).1.id < s.created
        rw [Batch.Index_id]; exact ho.2.1
    exact Nat.ne_of_lt hlt

/-- C10 amended, at five files with distinct stems and batch size 2. -/
theorem C10_batch_calls_bound_witness :
    (∀ b ∈ (indexBeer fiveWorld).batches,
        0 < b.ops.length ∧ b.ops.length ≤ 2 ∧ b.IndexOps.length ≤ 2) ∧
      (∀ b ∈ (indexBeer fiveWorld).batches.dropLast, b.ops.length = 2) ∧
      (indexBeer fiveWorld).batches.map (fun b => b.IndexOps.length) = [2, 2, 1] ∧
      ((indexBeer fiveWorld).batches.map (·.id)).Nodup :=
  have h := C10_batch_calls_bound fiveWorld 2 (by decide) rfl
  ⟨h.1, h.2.1, by decide, h.2.2.2.1⟩

/-! ## Claims on identifiers, startup and the handlers -/

/-- C3 (identifier derivation).  For a filename without path separators, `docID`
is the whole filename when it contains no dot, and otherwise the part before
its final dot.  For every `X`: the identifier of `X.json` is `X`, the
identifier of a dotless `X` is `X`, and the identifier of `X.tar.gz` is
`X.tar`. -/
theorem C3_identifier_derivation :
    (∀ f : GoString, (∀ c ∈ f, IsPathSeparator c = false) →
      (dot ∉ f → docID f = f) ∧
      (∀ pre suf : GoString, f = pre ++ dot :: suf → dot ∉ suf → docID f = pre)) ∧
    (∀ X : GoString, docID (X ++ asciiBytes ".json") = X) ∧
    (∀ X : GoString, dot ∉ X → docID X = X) ∧
    (∀ X : GoString, docID (X ++ asciiBytes ".tar.gz") = X ++ asciiBytes ".tar") := by
  refine ⟨?_, ?_, docID_nodot, ?_⟩
  · intro f hsep
    refine ⟨docID_nodot f, ?_⟩
    intro pre suf hf hd
    subst hf
    exact docID_split pre suf hd (fun c hc => hsep c (by simp [hc]))
  · intro X
    have h : asciiBytes ".json" = dot :: asciiBytes "json" := by decide
    rw [h]
    exact docID_split X (asciiBytes "json") (by decide) (by decide)
  · intro X
    have h : X ++ asciiBytes ".tar.gz" = (X ++ asciiBytes ".tar") ++ dot :: asciiBytes "gz" := by
      have h1 : asciiBytes ".tar.gz" = asciiBytes ".tar" ++ dot :: asciiBytes "gz" := by decide
      rw [h1, List.append_assoc]
    rw [h]
    exact docID_split (X ++ asciiBytes ".tar") (asciiBytes "gz") (by decide) (by decide)

/-- C3, at `21A-IPA.v2.json`, `README` and `beers.tar.gz`. -/
theorem C3_identifier_derivation_witness :
    docID (asciiBytes "21A-IPA.v2.json") = asciiBytes "21A-IPA.v2" ∧
      docID (asciiBytes "README") = asciiBytes "README" ∧
      docID (asciiBytes "beers.tar.gz") = asciiBytes "beers.tar" :=
  ⟨C3_identifier_derivation.2.1 (asciiBytes "21A-IPA.v2"),
    C3_identifier_derivation.2.2.1 (asciiBytes "README") (by decide),
    C3_identifier_derivation.2.2.2 (asciiBytes "beers")⟩

theorem init_reaches_open {Index Mapping : Type} (e : Startup Index Mapping)
    (hcpu : e.cpuprofile = "" ∨ e.Create e.cpuprofile = none) :
    (if e.cpuprofile ≠ "" then e.Create e.cpuprofile else none) = none := by
  rcases hcpu with h | h
  · simp [h]
  · simp [h]

theorem started_no_effect {Index Mapping : Type} (p : String)
    (rest : List (Effect Index Mapping)) :
    (InitRun.ingestions
        { effects := (if p ≠ "" then [Effect.startCPUProfile p] else []) ++ rest,
          beerIndex := none, fatal := none }) =
      InitRun.ingestions { effects := rest, beerIndex := none, fatal := none } ∧
    (InitRun.creations
        { effects := (if p ≠ "" then [Effect.startCPUProfile p] else []) ++ rest,
          beerIndex := none, fatal := none }) =
      InitRun.creations { effects := rest, beerIndex := none, fatal := none } := by
  by_cases h : p = "" <;> simp [h, InitRun.ingestions, InitRun.creations]

/-- C5 (bootstrap dichotomy).  Once `init` reaches `bleve.Open` (the CPU
profile file, if asked for, was created), what it does is decided by the
result of `Open`.  Success: the handle is kept, `NewUsing` is not called and no
ingestion is started.  `ErrorIndexPathDoesNotExist`: the index is created with
`NewUsing(path, mapping, "scorch", "scorch", nil)` and ingestion is started
exactly once, on that index; if building the mapping or `NewUsing` fails the
process ends in `log.Fatal` and no ingestion is started.  Any other error: the
process ends in `log.Fatal`, nothing is created and no ingestion is started. -/
theorem C5_bootstrap_dichotomy {Index Mapping : Type} (e : Startup Index Mapping)
    (hcpu : e.cpuprofile = "" ∨ e.Create e.cpuprofile = none) :
    (∀ i, e.Open e.indexPath = .ok i →
      (init e).beerIndex = some i ∧ (init e).fatal = none ∧
        (init e).creations = [] ∧ (init e).ingestions = []) ∧
    (e.Open e.indexPath = .error ErrorIndexPathDoesNotExist →
      (∀ m i, e.buildIndexMapping = .ok m →
        e.NewUsing e.indexPath m "scorch" "scorch" = .ok i →
        (init e).beerIndex = some i ∧ (init e).fatal = none ∧
          (init e).creations = [(e.indexPath, m, "scorch", "scorch")] ∧
          (init e).ingestions = [i]) ∧
      (∀ err, e.buildIndexMapping = .error err →
        (init e).fatal = some err ∧ (init e).beerIndex = none ∧
          (init e).creations = [] ∧ (init e).ingestions = []) ∧
      (∀ m err, e.buildIndexMapping = .ok m →
        e.NewUsing e.indexPath m "scorch" "scorch" = .error err →
        (init e).fatal = some err ∧ (init e).beerIndex = none ∧
          (init e).ingestions = [])) ∧
    (∀ err, e.Open e.indexPath = .error err → err ≠ ErrorIndexPathDoesNotExist →
      (init e).fatal = some err ∧ (init e).beerIndex = none ∧
        (init e).creations = [] ∧ (init e).ingestions = []) := by
  have h0 := init_reaches_open e hcpu
  have hs := fun rest => @started_no_effect Index Mapping e.cpuprofile rest
  refine ⟨?_, ?_, ?_⟩
  · intro i hO
    have hrun : init e =
        { effects := (if e.cpuprofile ≠ "" then [Effect.startCPUProfile e.cpuprofile] else []) ++ [],
          beerIndex := some i, fatal := none } := by
      simp [init, h0, hO]
    rw [hrun]
    exact ⟨rfl, rfl, (hs []).2, (hs []).1⟩
  · intro hO
    refine ⟨?_, ?_, ?_⟩
    · intro m i hM hN
      have hrun : init e =
          { effects := (if e.cpuprofile ≠ "" then [Effect.startCPUProfile e.cpuprofile] else []) ++
              [.newUsing e.indexPath m "scorch" "scorch", .goIndexBeer i],
            beerIndex := some i, fatal := none } := by
        simp [init, h0, hO, hM, hN]
      rw [hrun]
      exact ⟨rfl, rfl, (hs _).2, (hs _).1⟩
    · intro err hM
      have hrun : init e =
          { effects := (if e.cpuprofile ≠ "" then [Effect.startCPUProfile e.cpuprofile] else []) ++ [],
            beerIndex := none, fatal := some err } := by
        simp [init, h0, hO, hM]
      rw [hrun]
      exact ⟨rfl, rfl, (hs []).2, (hs []).1⟩
    · intro m err hM hN
      have hrun : init e =
          { effects := (if e.cpuprofile ≠ "" then [Effect.startCPUProfile e.cpuprofile] else []) ++
              [.newUsing e.indexPath m "scorch" "scorch"],
            beerIndex := none, fatal := some err } := by
        simp [init, h0, hO, hM, hN]
      rw [hrun]
      exact ⟨rfl, rfl, (hs _).1⟩
  · intro err hO hne
    have hrun : init e =
        { effects := (if e.cpuprofile ≠ "" then [Effect.startCPUProfile e.cpuprofile] else []) ++ [],
          beerIndex := none, fatal := some err } := by
      simp [init, h0, hO, hne]
    rw [hrun]
    exact ⟨rfl, rfl, (hs []).2, (hs []).1⟩

/-- C5, on an index that opens (index `5`) and on a missing path. -/
theorem C5_bootstrap_dichotomy_witness :
    ((init (toyStartup (.ok 5))).beerIndex = some 5 ∧ (init (toyStartup (.ok 5))).fatal = none ∧
        (init (toyStartup (.ok 5))).creations = [] ∧
        (init (toyStartup (.ok 5))).ingestions = []) ∧
      ((init (toyStartup (.error ErrorIndexPathDoesNotExist))).beerIndex = some 1 ∧
        (init (toyStartup (.error ErrorIndexPathDoesNotExist))).fatal = none ∧
        (init (toyStartup (.error ErrorIndexPathDoesNotExist))).creations =
          [("beer-search.bleve", 7, "scorch", "scorch")] ∧
        (init (toyStartup (.error ErrorIndexPathDoesNotExist))).ingestions = [1]) :=
  ⟨(C5_bootstrap_dichotomy (toyStartup (.ok 5)) (Or.inl rfl)).1 5 rfl,
    ((C5_bootstrap_dichotomy (toyStartup (.error ErrorIndexPathDoesNotExist))
      (Or.inl rfl)).2.1 rfl).1 7 1 rfl rfl⟩

theorem append_ne_empty_right (a b : String) (h : b ≠ "") : a ++ b ≠ "" := by
  intro heq
  apply h
  have h1 := congrArg String.data heq
  rw [String.data_append] at h1
  have h2 : b.data = [] := (List.append_eq_nil.1 h1).2
  exact String.ext h2

/-- C6, what the code does.  For every term, the request `GeoSearchConjunction`
passes to the engine has the conjunction of the query-string query for the term
and the 100mi geo-distance query on `geo` around the anchor as its query, but
it is a fresh `NewSearchRequest`: page size 10 and no highlighting.  The
request `req` that was given page size 30 and HTML highlighting holds the
query-string query alone and is never passed to the engine. -/
theorem C6_conjunction_request_is_default (search : SearchFn) (term : String) :
    (GeoSearchConjunction search term).searched = [GeoSearchConjunction.searchRequest term] ∧
      (GeoSearchConjunction.searchRequest term).Query =
        .conjunction [.queryString { Query := term },
          .geoDistance { Location := [-122.107799, 37.399285], Distance := "100mi",
                         FieldVal := "geo" }] ∧
      (GeoSearchConjunction.searchRequest term).Size = 10 ∧
      (GeoSearchConjunction.searchRequest term).Highlight = none ∧
      (GeoSearchConjunction.req term).Size = 30 ∧
      (GeoSearchConjunction.req term).Highlight = some { Style := some "html", Fields := [] } ∧
      (GeoSearchConjunction.req term).Query = .queryString { Query := term } := by
  refine ⟨?_, rfl, rfl, rfl, rfl, rfl, rfl⟩
  unfold GeoSearchConjunction
  split <;> rfl

/-- C7 as stated fails: a malformed file makes the background task call
`log.Fatal`, which ends the process instead of leaving it running. -/
theorem C7_counterexample :
    failFastWorld.ReadDir failFastWorld.jsonDir =
        .ok [asciiBytes "a.json", asciiBytes "b.json"] ∧
      Malformed failFastWorld (asciiBytes "b.json") "invalid character" ∧
      backgroundIndexing failFastWorld "" (fun _ => none) =
        .processExit "invalid character" ∧
      backgroundIndexing failFastWorld "" (fun _ => none) ≠ .finished :=
  ⟨rfl, ⟨asciiBytes "x", rfl, rfl⟩, by decide, by decide⟩

/-- C7, amended.  Whenever reading the directory fails, a listed file fails to
read or to decode, or an `i.Batch` call (in the loop or the final flush)
returns an error, the background task ends in `log.Fatal`: the process exits. -/
theorem C7_ingestion_failure_exits {Doc : Type} (w : World Doc) (memprofile : String)
    (Create : String → Option GoError)
    (hfail : (∃ err, w.ReadDir w.jsonDir = .error err) ∨
      (∃ es, w.ReadDir w.jsonDir = .ok es ∧ ∃ f ∈ es, ¬ Loads w f) ∨
      (∃ c ∈ (indexBeer w).calls, c.err ≠ none)) :
    ∃ err, backgroundIndexing w memprofile Create = .processExit err := by
  have hne : (indexBeer w).outcome ≠ .returned none := by
    intro h
    obtain ⟨⟨es, hD, hloads⟩, herr⟩ := indexBeer_returned_nil w h
    rcases hfail with ⟨err, hD2⟩ | ⟨es2, hD2, f, hf, hnl⟩ | ⟨c, hc, hce⟩
    · rw [hD] at hD2; cases hD2
    · rw [hD] at hD2
      cases hD2
      exact hnl (hloads f hf)
    · exact hce (herr c hc)
  unfold backgroundIndexing
  cases hO : (indexBeer w).outcome with
  | fatal err => exact ⟨err, rfl⟩
  | returned oerr =>
    cases oerr with
    | some err => exact ⟨err, rfl⟩
    | none => exact absurd hO hne

/-- C7 amended, at the directory with a malformed second file. -/
theorem C7_ingestion_failure_exits_witness :
    ∃ err, backgroundIndexing failFastWorld "" (fun _ => none) = .processExit err :=
  C7_ingestion_failure_exits failFastWorld "" (fun _ => none)
    (Or.inr (Or.inl ⟨[asciiBytes "a.json", asciiBytes "b.json"], rfl, asciiBytes "b.json",
      by decide, not_loads_of_loadsB _ _ (by decide)⟩))

/-- C8 (engine errors are swallowed).  Each of `GeoSearch`,
`GeoSearchConjunction` and `Search` passes exactly one request to the engine
and never sets a status code.  If the engine returns an error for that request,
the handler returns with nothing written.  If the engine returns a result, the
handler writes a non-empty body; for `Search` this needs the result to carry
the `styles` facet that the request asked for. -/
theorem C8_engine_errors_swallowed (search : SearchFn) (term : String) :
    ((GeoSearch search).searched = [GeoSearch.searchRequest] ∧
      (GeoSearch search).status = none ∧
      (∀ err, search GeoSearch.searchRequest = .error err →
        (GeoSearch search).body = "" ∧ (GeoSearch search).panicked = false) ∧
      (∀ res, search GeoSearch.searchRequest = .ok res → (GeoSearch search).body ≠ "")) ∧
    ((GeoSearchConjunction search term).searched = [GeoSearchConjunction.searchRequest term] ∧
      (GeoSearchConjunction search term).status = none ∧
      (∀ err, search (GeoSearchConjunction.searchRequest term) = .error err →
        (GeoSearchConjunction search term).body = "" ∧
          (GeoSearchConjunction search term).panicked = false) ∧
      (∀ res, search (GeoSearchConjunction.searchRequest term) = .ok res →
        (GeoSearchConjunction search term).body ≠ "")) ∧
    ((Search search term).searched = [Search.req term] ∧
      (Search search term).status = none ∧
      (∀ err, search (Search.req term) = .error err →
        (Search search term).body = "" ∧ (Search search term).panicked = false) ∧
      (∀ res, search (Search.req term) = .ok res → res.Facets.lookup "styles" ≠ none →
        (Search search term).body ≠ "")) := by
  have hsp : (" " : String) ≠ "" := by decide
  refine ⟨⟨?_, ?_, ?_, ?_⟩, ⟨?_, ?_, ?_, ?_⟩, ⟨?_, ?_, ?_, ?_⟩⟩
  · unfold GeoSearch; split <;> rfl
  · unfold GeoSearch; split <;> rfl
  · intro err h; simp [GeoSearch, h]
  · intro res h
    simp only [GeoSearch, h]
    exact append_ne_empty_right _ _ hsp
  · unfold GeoSearchConjunction; split <;> rfl
  · unfold GeoSearchConjunction; split <;> rfl
  · intro err h; simp [GeoSearchConjunction, h]
  · intro res h
    simp only [GeoSearchConjunction, h]
    exact append_ne_empty_right _ _ hsp
  · unfold Search; split
    · rfl
    · split
      · rfl
      · split
        · split <;> rfl
        · rfl
  · unfold Search; split
    · rfl
    · split
      · rfl
      · split
        · split <;> rfl
        · rfl
  · intro err h; simp [Search, h]
  · intro res h hf
    cases hl : res.Facets.lookup "styles" with
    | none => exact absurd hl hf
    | some styles =>
      simp only [Search, h, hl]
      split
      · split
        · show ("Facets:\n" : String) ≠ ""
          decide
        · exact append_ne_empty_right _ _ (append_ne_empty_right _ _ hsp)
      · exact append_ne_empty_right _ _ hsp

/-- C8, with an engine that fails every search and one that answers. -/
theorem C8_engine_errors_swallowed_witness :
    ((Search failingSearch "ipa").body = "" ∧ (Search failingSearch "ipa").panicked = false) ∧
      (Search toySearch "ipa").body ≠ "" ∧
      ((GeoSearch failingSearch).body = "" ∧ (GeoSearch failingSearch).panicked = false) ∧
      (GeoSearchConjunction toySearch "ipa").body ≠ "" :=
  ⟨(C8_engine_errors_swallowed failingSearch "ipa").2.2.2.2.1 "index is closed" rfl,
    (C8_engine_errors_swallowed toySearch "ipa").2.2.2.2.2 _ rfl (by decide),
    (C8_engine_errors_swallowed failingSearch "ipa").1.2.2.1 "index is closed" rfl,
    (C8_engine_errors_swallowed toySearch "ipa").2.1.2.2.2 _ rfl⟩

/-- C9 (term search response).  `Search` passes one request to the engine:
the query-string query for the term, page size 30, HTML highlighting, and the
single facet `styles` over field `state` with size 3.  When the engine answers
with a result that carries the `styles` facet, the body is the facet summary
followed by `"\n\nResults for: <term> \n\n<rendering> "` with the engine's
rendering unchanged: the summary is `"Facets:\n"` and the first bucket as
`"<Term> (<Count>) \n"` when the facet's `Total` is positive, and empty
otherwise. -/
theorem C9_term_search_response (search : SearchFn) (term : String) (res : SearchResult)
    (styles : FacetResult) (hok : search (Search.req term) = .ok res)
    (hfacet : res.Facets.lookup "styles" = some styles) :
    (Search search term).searched = [Search.req term] ∧
      (Search.req term).Query = .queryString { Query := term } ∧
      (Search.req term).Size = 30 ∧
      (Search.req term).Highlight = some { Style := some "html", Fields := [] } ∧
      (Search.req term).Facets = [("styles", { Size := 3, Field := "state" })] ∧
      (∀ top rest, styles.Terms = top :: rest → styles.Total > 0 →
        (Search search term).body =
            "Facets:\n" ++ (top.Term ++ " (" ++ toString top.Count ++ ") \n") ++
              ("\n\nResults for: " ++ term ++ " \n\n" ++ res.rendering ++ " ") ∧
          (Search search term).panicked = false) ∧
      (styles.Total ≤ 0 →
        (Search search term).body =
            "" ++ ("\n\nResults for: " ++ term ++ " \n\n" ++ res.rendering ++ " ") ∧
          (Search search term).panicked = false) := by
  refine ⟨?_, rfl, rfl, rfl, rfl, ?_, ?_⟩
  · simp only [Search, hok, hfacet]
    split
    · split <;> rfl
    · rfl
  · intro top rest hT hpos
    constructor <;> simp [Search, hok, hfacet, hpos, hT]
  · intro hle
    have hn : ¬ styles.Total > 0 := by omega
    constructor <;> simp [Search, hok, hfacet, hn]

/-- C9, with the example engine and term `ipa`. -/
theorem C9_term_search_response_witness :
    (Search toySearch "ipa").body = "Facets:\nCA (1) \n\n\nResults for: ipa \n\n2 matches " :=
  ((C9_term_search_response toySearch "ipa" _
      { Field := "state", Total := 2, Terms := [⟨"CA", 1⟩, ⟨"FR", 1⟩] } rfl rfl).2.2.2.2.2.1
    ⟨"CA", 1⟩ [⟨"FR", 1⟩] rfl (by decide)).1.trans (by decide)

end BeerSearch
